import Mathlib

/-!
Verification development for the HoMLGOP progressive-growth engine
(`GOP/models/homlgop.py`).

The shallow embedding below translates `HoMLGOP.progressive_learn` and
`HoMLGOP.fit` into Lean.  External collaborators (`gop_utils.search_*`,
`gop_utils.get_random_block_weights`, `gop_utils.block_update`, the
final fine-tune, operator resolution) are deterministic functions bundled
in an `Env` structure; weight blobs and history blobs are coded as `Nat`
tokens, performance measures as `Int` (an opaque ordered scalar standing
in for the Python float measures, whose floating-point representation is
out of scope per the spec's non-goals).

Pieces of the repository that are not in the provided source file
(`misc.initialize_states`, `misc.check_convergence`, `misc.test_generator`,
`misc.set_cuda_variable`/`reset_cuda_variable`) are modelled from the spec
and marked as such in their doc comments.

Python-dict component keys `'gop_<layer>_<block>'`, `'bn_<layer>_<block>'`
and `'output'` are encoded by the inductive `WKey`; this is faithful
because `Nat.repr` is injective and the three string patterns are
disjoint.  Python dicts are encoded as association lists with unique
keys; `winsert` mirrors dict assignment (replace in place, else append at
the end) and `werase` mirrors `del` (key removed).  Dict equality is
extensional equality of lookups.
-/

namespace HoMLGOP

/-- Component key of the `weights` / `op_set_indices` dicts:
`gop l b` encodes `'gop_<l>_<b>'`, `bn l b` encodes `'bn_<l>_<b>'`,
`output` encodes `'output'`. -/
inductive WKey where
  | gop : Nat → Nat → WKey
  | bn : Nat → Nat → WKey
  | output : WKey
deriving DecidableEq, Repr

/-- A Python dict with `WKey` keys and opaque `Nat` values. -/
abbrev WMap := List (WKey × Nat)

/-- Dict lookup: value of the first matching key. -/
def wlookup : WMap → WKey → Option Nat
  | [], _ => none
  | (k, v) :: rest, key => if k = key then some v else wlookup rest key

/-- Dict assignment `m[key] = v`: replace in place if present, else append. -/
def winsert : WMap → WKey → Nat → WMap
  | [], key, v => [(key, v)]
  | (k, v0) :: rest, key, v =>
      if k = key then (key, v) :: rest else (k, v0) :: winsert rest key v

/-- Dict deletion `del m[key]`: every entry with the key is removed. -/
def werase : WMap → WKey → WMap
  | [], _ => []
  | (k, v) :: rest, key =>
      if k = key then werase rest key else (k, v) :: werase rest key

/-- Extensional dict equality (Python `==` on dicts ignores entry order). -/
def WEquiv (m1 m2 : WMap) : Prop := ∀ k, wlookup m1 k = wlookup m2 k

/-- One element of the `topology` list: either a mutable block list
(each block descriptor is a `('gop', width)` pair) or an output
descriptor tuple `('dense', width)`. -/
inductive TopEntry where
  | blockList : List (String × Nat) → TopEntry
  | pair : String × Nat → TopEntry
deriving DecidableEq, Repr

/-- In-place update of the `i`-th element of a list (Python `l[i] = f(l[i])`,
a no-op when the index is out of range, which is unreachable here). -/
def updateAt : List α → Nat → (α → α) → List α
  | [], _, _ => []
  | x :: rest, 0, f => f x :: rest
  | x :: rest, n + 1, f => x :: updateAt rest n f

/-- The `train_states` dict. -/
structure TrainState where
  topology : List TopEntry
  op_set_indices : WMap
  weights : WMap
  history : List (List Nat)
  measure : List (List Int)
  block_output_weight : Nat
  layer_output_weight : Nat
  layer_iter : Nat
  block_iter : Nat
  is_finished : Bool
  use_bias : Bool
  output_activation : Nat
deriving DecidableEq, Repr, Inhabited

/-- Configuration parameters (the fields of `params` that the growth engine
reads). -/
structure Params where
  max_layer : Nat
  max_block : Nat
  block_size : Nat
  input_dim : Nat
  output_dim : Nat
  direction : String
  block_threshold : Int
  layer_threshold : Int
  convergence_measure : String
  finetune_cuda : Nat
  use_bias : Bool
  output_activation : Nat
deriving DecidableEq, Repr, Inhabited

/-- A data-generator contract: the dimensionalities the generator declares. -/
structure Gen where
  input_dim : Nat
  output_dim : Nat
deriving DecidableEq, Repr

/-- The assembled final model description (`model_data`). -/
structure ModelData where
  model : String
  topology : List TopEntry
  op_sets : Nat
  weights : WMap
  use_bias : Bool
  output_activation : Nat
deriving DecidableEq, Repr

/-- Deterministic external collaborators.  `search` stands for
`gop_utils.search_cpu/search_gpu/search_cluster` and returns
`(score, block_weights_triple, block_op_set_idx, diagnostics)`;
`blockUpdate` stands for `gop_utils.block_update` and returns
`(measure, history, updated_weights)` or raises (error payload is an
opaque `Nat`); `map_operator_from_index` and `finetune` are the operator
resolution and final fine-tune collaborators used by `fit`. -/
structure Env where
  search : Params → TrainState → Int × (Nat × Nat × Nat) × Nat × Nat
  randomBlockWeights : Nat × Nat × Nat → Nat × Nat × Nat
  blockUpdate : List TopEntry → WMap → WMap → Params → List WKey →
    Except Nat (Int × Nat × WMap)
  map_operator_from_index : WMap → Params → Nat
  finetune : ModelData → Params → Nat × Int

/-- Modelled from the spec: `misc.check_convergence` is not in the provided
source.  Pure decision function of (new measure, reference measure,
direction, threshold): convergence is declared when the improvement from
reference to new, signed according to the direction, is smaller than the
threshold (strict `<` is the chosen boundary convention; the spec leaves
the boundary open). -/
def check_convergence (newM refM : Int) (direction : String) (threshold : Int) : Bool :=
  let improvement := if direction = "lower" then refM - newM else newM - refM
  improvement < threshold

/-- Modelled from the spec: `misc.test_generator` is not in the provided
source.  It validates a data generator against the declared input/output
dimensionality and fails fast on mismatch. -/
def test_generator (g : Gen) (idim odim : Nat) : Except String Unit :=
  if g.input_dim = idim ∧ g.output_dim = odim then Except.ok ()
  else Except.error "generator dimension mismatch"

/-- Modelled from the spec: the fresh `TrainState` produced by
`misc.initialize_states` when no checkpoint exists.  Per the spec's data
model, the Topology starts empty (block lists and the single trailing
output descriptor are appended by the growth loop), the per-layer
measure/history sequences start empty, both cursors start at 0 and
`is_finished` is false; `use_bias`/`output_activation` are copied from
the configuration. -/
def initState (p : Params) : TrainState :=
  { topology := []
    op_set_indices := []
    weights := []
    history := []
    measure := []
    block_output_weight := 0
    layer_output_weight := 0
    layer_iter := 0
    block_iter := 0
    is_finished := false
    use_bias := p.use_bias
    output_activation := p.output_activation }

/-- Loop-carried state: the `train_states` dict plus the ambient
computation-environment variable manipulated by
`misc.set_cuda_variable` / `misc.reset_cuda_variable` (modelled from the
spec as an opaque ambient `Nat`, scoped around each block fine-tune). -/
structure St where
  ts : TrainState
  cuda : Nat
deriving DecidableEq, Repr

/-- Exit status of one inner (block) iteration. -/
inductive BEx where
  | err : String → BEx
  | stop : BEx
  | next : BEx
deriving DecidableEq, Repr

/-- Exit status of one outer (layer) iteration. -/
inductive LEx where
  | err : String → LEx
  | brk : LEx
  | cont : LEx
deriving DecidableEq, Repr

/-- Exit status of the outer loop. -/
inductive OEx where
  | err : String → OEx
  | brk : OEx
  | done : OEx
deriving DecidableEq, Repr

/-- Lines 205-212: at block 0 of a layer, pop the previous output
descriptor (for layers after the first), append a new empty block list
and a fresh output descriptor, and append fresh per-layer
history/measure slots. -/
def prepState (p : Params) (l j : Nat) (ts : TrainState) : TrainState :=
  if j = 0 then
    let t0 := if 0 < l then ts.topology.dropLast else ts.topology
    { ts with
      topology := t0 ++ [TopEntry.blockList [], TopEntry.pair ("dense", p.output_dim)]
      history := ts.history ++ [[]]
      measure := ts.measure ++ [[]] }
  else ts

/-- Lines 218-246: block 0 runs the randomized search; block `j > 0`
copies the operator-set index of block `j-1` of the same layer and
derives initial weights by randomized re-initialization of block `j-1`'s
committed `(gop, bn, output)` weights.  Returns (weights triple, op-set
index). -/
def blockInit (env : Env) (p : Params) (l j : Nat) (ts : TrainState) :
    (Nat × Nat × Nat) × Nat :=
  if j = 0 then
    let r := env.search p ts
    (r.2.1, r.2.2.1)
  else
    let idx := (wlookup ts.op_set_indices (WKey.gop l (j - 1))).getD 0
    let bw := env.randomBlockWeights
      ((wlookup ts.weights (WKey.gop l (j - 1))).getD 0,
       (wlookup ts.weights (WKey.bn l (j - 1))).getD 0,
       (wlookup ts.weights WKey.output).getD 0)
    (bw, idx)

/-- The `block_names` list of line 249. -/
def blockNames (l j : Nat) : List WKey := [WKey.gop l j, WKey.bn l j, WKey.output]

/-- Lines 248-256: append the new block descriptor to the current layer's
block list and register its weights and operator-set choice. -/
def addBlock (p : Params) (l j : Nat) (bw : Nat × Nat × Nat) (idx : Nat)
    (ts : TrainState) : TrainState :=
  { ts with
    topology := updateAt ts.topology (ts.topology.length - 2) fun e =>
      match e with
      | TopEntry.blockList bl => TopEntry.blockList (bl ++ [("gop", p.block_size)])
      | e => e
    op_set_indices := winsert ts.op_set_indices (WKey.gop l j) idx
    weights := winsert (winsert (winsert ts.weights (WKey.gop l j) bw.1)
      (WKey.bn l j) bw.2.1) WKey.output bw.2.2 }

/-- The state on which `block_update` is invoked: `prepState` then
`blockInit` then `addBlock`. -/
def blockAttempt (env : Env) (p : Params) (l j : Nat) (ts : TrainState) : TrainState :=
  let ts1 := prepState p l j ts
  let bi := blockInit env p l j ts1
  addBlock p l j bi.1 bi.2 ts1

/-- Lines 292-307: block rollback.  Discard the block's topology entry and
its weights/op-set entries, restore `output` weights from the last
committed block's output snapshot, reset the block cursor, advance the
layer cursor. -/
def blockRollback (l j : Nat) (ts : TrainState) : TrainState :=
  { ts with
    topology := updateAt ts.topology (ts.topology.length - 2) fun e =>
      match e with
      | TopEntry.blockList bl => TopEntry.blockList bl.dropLast
      | e => e
    weights := winsert (werase (werase ts.weights (WKey.gop l j)) (WKey.bn l j))
      WKey.output ts.block_output_weight
    op_set_indices := werase ts.op_set_indices (WKey.gop l j)
    block_iter := 0
    layer_iter := ts.layer_iter + 1 }

/-- Lines 309-314: block commit.  Snapshot the output weights, record the
block's measure and history in the layer's slots, advance the block
cursor (wrapping to 0 at `max_block - 1`). -/
def blockCommit (p : Params) (l j : Nat) (m : Int) (h : Nat) (ts : TrainState) :
    TrainState :=
  { ts with
    block_output_weight := (wlookup ts.weights WKey.output).getD 0
    measure := updateAt ts.measure l (fun ms => ms ++ [m])
    history := updateAt ts.history l (fun hs => hs ++ [h])
    block_iter := if j = p.max_block - 1 then 0 else j + 1 }

/-- The wrapped fatal error raised at line 280. -/
def failMsg : String := "Fail updating block weights after randomized search"

/-- One iteration of the inner block loop (lines 205-319): prepare, search
or reuse, add the block, fine-tune it inside a scoped cuda acquisition
(restored on every exit path), then either abort (collaborator error),
roll the block back (convergence declared, `block_iter > 0` only) or
commit it.  Checkpoint snapshots written by this iteration are returned
alongside the new state. -/
def blockStep (env : Env) (p : Params) (l j : Nat) (s : St) :
    St × List TrainState × BEx :=
  let ts2 := blockAttempt env p l j s.ts
  let cudaPrior := s.cuda
  let _cudaDuring := p.finetune_cuda
  match env.blockUpdate ts2.topology ts2.op_set_indices ts2.weights p (blockNames l j) with
  | Except.error _ => ({ ts := ts2, cuda := cudaPrior }, [], BEx.err failMsg)
  | Except.ok (m, h, w2) =>
    let ts3 := { ts2 with weights := w2 }
    if 0 < j ∧ check_convergence m ((ts3.measure.getD l []).getD (j - 1) 0)
        p.direction p.block_threshold then
      let ts4 := blockRollback l j ts3
      ({ ts := ts4, cuda := cudaPrior }, [ts4], BEx.stop)
    else
      let ts4 := blockCommit p l j m h ts3
      ({ ts := ts4, cuda := cudaPrior }, [ts4], BEx.next)

/-- The inner block loop (line 203), processing the given block indices in
order until a break or an error. -/
def runBlocks (env : Env) (p : Params) (l : Nat) :
    List Nat → St → St × List TrainState × BEx
  | [], s => (s, [], BEx.next)
  | j :: rest, s =>
    match blockStep env p l j s with
    | (s1, cps, BEx.err e) => (s1, cps, BEx.err e)
    | (s1, cps, BEx.stop) => (s1, cps, BEx.stop)
    | (s1, cps, BEx.next) =>
      match runBlocks env p l rest s1 with
      | (s2, cps2, ex) => (s2, cps ++ cps2, ex)

/-- Lines 321-338: layer rollback.  Remove the layer's block list, all its
weight/op-set entries, restore `output` weights from the last committed
layer's snapshot, and delete the layer's history entry (the measure
entry is kept). -/
def layerRollback (l : Nat) (ts : TrainState) : TrainState :=
  let no_blocks :=
    match ts.topology.getD (ts.topology.length - 2) (TopEntry.blockList []) with
    | TopEntry.blockList bl => bl.length
    | TopEntry.pair _ => 2
  let w2 := (List.range no_blocks).foldl
    (fun w idx => werase (werase w (WKey.gop l idx)) (WKey.bn l idx)) ts.weights
  let o2 := (List.range no_blocks).foldl
    (fun o idx => werase o (WKey.gop l idx)) ts.op_set_indices
  { ts with
    topology := ts.topology.eraseIdx (ts.topology.length - 2)
    weights := winsert w2 WKey.output ts.layer_output_weight
    op_set_indices := o2
    history := ts.history.dropLast }

/-- Lines 321-326: the guarded layer-convergence condition — the check is
only performed for layers after the first, and compares the new layer's
final measure to the previous layer's final measure. -/
def layerConvCond (p : Params) (l : Nat) (ts : TrainState) : Bool :=
  decide (0 < l) && check_convergence ((ts.measure.getD l []).getLastD 0)
    ((ts.measure.getD (l - 1) []).getLastD 0) p.direction p.layer_threshold

/-- Lines 340-344: after a layer closes without layer rollback, advance the
layer cursor (unless a block rollback already did) and snapshot the
output weights at layer granularity. -/
def layerAdvance (ex : BEx) (ts : TrainState) : TrainState :=
  let ts2 := if ex = BEx.stop then ts else { ts with layer_iter := ts.layer_iter + 1 }
  { ts2 with layer_output_weight := (wlookup ts2.weights WKey.output).getD 0 }

/-- One iteration of the outer layer loop (lines 202-344): run the inner
loop from the persisted block cursor, then (for layers after the first)
the layer-convergence check with rollback and termination, else advance
the layer cursor and snapshot the output weights. -/
def layerBody (env : Env) (p : Params) (l : Nat) (s : St) :
    St × List TrainState × LEx :=
  match runBlocks env p l (List.range' s.ts.block_iter (p.max_block - s.ts.block_iter)) s with
  | (s1, cps, BEx.err e) => (s1, cps, LEx.err e)
  | (s1, cps, ex) =>
    if layerConvCond p l s1.ts then
      ({ s1 with ts := layerRollback l s1.ts }, cps, LEx.brk)
    else
      ({ s1 with ts := layerAdvance ex s1.ts }, cps, LEx.cont)

/-- The outer layer loop (line 201). -/
def outerLoop (env : Env) (p : Params) :
    List Nat → St → St × List TrainState × OEx
  | [], s => (s, [], OEx.done)
  | l :: rest, s =>
    match layerBody env p l s with
    | (s1, cps, LEx.err e) => (s1, cps, OEx.err e)
    | (s1, cps, LEx.brk) => (s1, cps, OEx.brk)
    | (s1, cps, LEx.cont) =>
      match outerLoop env p rest s1 with
      | (s2, cps2, ex) => (s2, cps ++ cps2, ex)

instance {ε α : Type} [DecidableEq ε] [DecidableEq α] : DecidableEq (Except ε α) :=
  fun a b =>
    match a, b with
    | Except.ok x, Except.ok y =>
      if h : x = y then Decidable.isTrue (by rw [h])
      else Decidable.isFalse (by intro hh; injection hh; contradiction)
    | Except.error x, Except.error y =>
      if h : x = y then Decidable.isTrue (by rw [h])
      else Decidable.isFalse (by intro hh; injection hh; contradiction)
    | Except.ok _, Except.error _ => Decidable.isFalse (by intro hh; cases hh)
    | Except.error _, Except.ok _ => Decidable.isFalse (by intro hh; cases hh)

/-- Outcome of a growth run: the final state or the propagated fatal
error, the final ambient cuda value, and the sequence of checkpoint
snapshots written to the State Store. -/
structure RunOut where
  result : Except String TrainState
  cuda : Nat
  cps : List TrainState
deriving DecidableEq, Repr

/-- Lines 200-349: the growth loop proper, entered with the `TrainState`
returned by `misc.initialize_states` (fresh or restored from a
checkpoint).  If the state is already finished the loops are skipped;
otherwise the outer loop runs from the persisted layer cursor, and on
normal or break exit the state is marked finished and checkpointed once
more. -/
def growthLoop (env : Env) (p : Params) (ts0 : TrainState) (cuda0 : Nat) : RunOut :=
  if ts0.is_finished then { result := Except.ok ts0, cuda := cuda0, cps := [] }
  else
    match outerLoop env p (List.range' ts0.layer_iter (p.max_layer - ts0.layer_iter))
        { ts := ts0, cuda := cuda0 } with
    | (s, cps, OEx.err e) => { result := Except.error e, cuda := s.cuda, cps := cps }
    | (s, cps, _) =>
      let tsF := { s.ts with is_finished := true }
      { result := Except.ok tsF, cuda := s.cuda, cps := cps ++ [tsF] }

/-- Lines 192-196: validate every supplied data generator before any
growth work. -/
def validateGens (p : Params) (train : Gen) (valG testG : Option Gen) :
    Except String Unit := do
  test_generator train p.input_dim p.output_dim
  match valG with
  | some g => test_generator g p.input_dim p.output_dim
  | none => Except.ok ()
  match testG with
  | some g => test_generator g p.input_dim p.output_dim
  | none => Except.ok ()

/-- Lines 184-349 of `progressive_learn`: prefix the convergence measure
by data-source availability, validate the generators, then run the
growth loop on the initialized state. -/
def progressive_learn (env : Env) (p : Params) (train : Gen)
    (valG testG : Option Gen) (ts0 : TrainState) (cuda0 : Nat) : RunOut :=
  let p1 := { p with convergence_measure :=
    (if valG.isSome then "val_" else "train_") ++ p.convergence_measure }
  match validateGens p1 train valG testG with
  | Except.error e => { result := Except.error e, cuda := cuda0, cps := [] }
  | Except.ok _ => growthLoop env p1 ts0 cuda0

/-- Lines 351-359: assemble the final model description from the terminal
`TrainState`. -/
def modelData (env : Env) (p : Params) (ts : TrainState) : ModelData :=
  { model := "HoMLGOP"
    topology := ts.topology
    op_sets := env.map_operator_from_index ts.op_set_indices p
    weights := ts.weights
    use_bias := ts.use_bias
    output_activation := ts.output_activation }

/-- Outcome of `fit`: the returned `(performance, p_history, f_history)`
triple or the propagated error, the checkpoint trace, and whether the
transient per-run working directory still exists afterwards. -/
structure FitOut where
  result : Except String (Int × List (List Nat) × Nat)
  cps : List TrainState
  workdir : Bool
deriving DecidableEq, Repr

/-- Lines 135-172: `fit` runs progressive learning (which validates the
generators first), then the full-network fine-tune on the assembled
model description, deletes the transient working directory, and returns
`(performance, p_history, f_history)`.  On a growth error the error
propagates and no fine-tune or cleanup happens. -/
def fit (env : Env) (p : Params) (train : Gen) (valG testG : Option Gen)
    (ts0 : TrainState) (cuda0 : Nat) (workdir : Bool) : FitOut :=
  let out := progressive_learn env p train valG testG ts0 cuda0
  match out.result with
  | Except.error e => { result := Except.error e, cps := out.cps, workdir := workdir }
  | Except.ok ts =>
    let md := modelData env p ts
    let fr := env.finetune md p
    { result := Except.ok (fr.2, ts.history, fr.1), cps := out.cps, workdir := false }

/-! ### Concrete deterministic collaborators and configurations, used to
evaluate the engine on closed inputs -/

/-- Total number of committed block descriptors in a topology. -/
def countBlocks (topo : List TopEntry) : Nat :=
  topo.foldl
    (fun acc e => match e with
      | TopEntry.blockList bl => acc + bl.length
      | TopEntry.pair _ => acc) 0

/-- Deterministic collaborators whose block fine-tune strictly improves the
measure with every committed block, so no convergence is ever declared.
The search always returns operator index 3 and a fixed weight triple. -/
def envImprove : Env :=
  { search := fun _ _ => (0, (1, 2, 3), 3, 0)
    randomBlockWeights := fun t => (t.1 + 10, t.2.1 + 10, t.2.2 + 10)
    blockUpdate := fun topo _ w _ _ => Except.ok ((100 : Int) - countBlocks topo, 7, w)
    map_operator_from_index := fun _ _ => 0
    finetune := fun _ _ => (42, 9) }

/-- Deterministic collaborators with a constant measure, so convergence is
declared whenever a convergence check is performed. -/
def envConst : Env :=
  { search := fun _ _ => (0, (1, 2, 3), 3, 0)
    randomBlockWeights := fun t => (t.1 + 10, t.2.1 + 10, t.2.2 + 10)
    blockUpdate := fun _ _ w _ _ => Except.ok (5, 7, w)
    map_operator_from_index := fun _ _ => 0
    finetune := fun _ _ => (42, 9) }

/-- Deterministic collaborators whose block fine-tune always raises. -/
def envFail : Env :=
  { search := fun _ _ => (0, (1, 2, 3), 3, 0)
    randomBlockWeights := fun t => (t.1 + 10, t.2.1 + 10, t.2.2 + 10)
    blockUpdate := fun _ _ _ _ _ => Except.error 13
    map_operator_from_index := fun _ _ => 0
    finetune := fun _ _ => (42, 9) }

/-- A base configuration: one layer of up to two blocks, lower-is-better,
thresholds 1. -/
def pBase : Params :=
  { max_layer := 1
    max_block := 2
    block_size := 4
    input_dim := 5
    output_dim := 2
    direction := "lower"
    block_threshold := 1
    layer_threshold := 1
    convergence_measure := "mse"
    finetune_cuda := 1
    use_bias := true
    output_activation := 0 }

/-- Two layers with a single block each. -/
def pTwoLayers : Params := { pBase with max_layer := 2, max_block := 1 }

/-- One layer with up to three blocks. -/
def pThreeBlocks : Params := { pBase with max_layer := 1, max_block := 3 }

/-- The state at entry of layer 1 when `envConst`/`pTwoLayers` grew layer 0:
one committed block, its weights/operator index registered, layer-granular
output snapshot taken. -/
def tsLayer1Entry : TrainState :=
  { topology := [TopEntry.blockList [("gop", 4)], TopEntry.pair ("dense", 2)]
    op_set_indices := [(WKey.gop 0 0, 3)]
    weights := [(WKey.gop 0 0, 1), (WKey.bn 0 0, 2), (WKey.output, 3)]
    history := [[7]]
    measure := [[5]]
    block_output_weight := 3
    layer_output_weight := 3
    layer_iter := 1
    block_iter := 0
    is_finished := false
    use_bias := true
    output_activation := 0 }

/-- The state after block 0 of layer 0 was committed under
`envConst`/`pThreeBlocks`: the block cursor points at block 1 and the
block-granular output snapshot equals the current output weights. -/
def tsBlock1Entry : TrainState :=
  { topology := [TopEntry.blockList [("gop", 4)], TopEntry.pair ("dense", 2)]
    op_set_indices := [(WKey.gop 0 0, 3)]
    weights := [(WKey.gop 0 0, 1), (WKey.bn 0 0, 2), (WKey.output, 3)]
    history := [[7]]
    measure := [[5]]
    block_output_weight := 3
    layer_output_weight := 0
    layer_iter := 0
    block_iter := 1
    is_finished := false
    use_bias := true
    output_activation := 0 }

/-- A data generator declaring the dimensions of `pBase`. -/
def genOk : Gen := { input_dim := 5, output_dim := 2 }

/-- One admissible cursor transition between consecutive persisted
checkpoints: the block cursor advances by one or resets to 0, and the
layer cursor stays or advances by one (never regresses). -/
def cursorStep (c c2 : TrainState) : Prop :=
  (c2.block_iter = c.block_iter + 1 ∨ c2.block_iter = 0) ∧
  (c2.layer_iter = c.layer_iter ∨ c2.layer_iter = c.layer_iter + 1)

instance : DecidableRel cursorStep := fun c c2 => by
  unfold cursorStep
  infer_instance

/-! ### Support lemmas: dict and list operations -/

theorem wlookup_winsert_self (m : WMap) (k : WKey) (v : Nat) :
    wlookup (winsert m k v) k = some v := by
  induction m with
  | nil => simp [winsert, wlookup]
  | cons kv rest ih =>
    by_cases h : kv.1 = k
    · simp [winsert, h, wlookup]
    · simp [winsert, h, wlookup, ih]

theorem wlookup_winsert_ne (m : WMap) (k k' : WKey) (v : Nat) (h : k' ≠ k) :
    wlookup (winsert m k v) k' = wlookup m k' := by
  induction m with
  | nil => simp [winsert, wlookup, Ne.symm h]
  | cons kv rest ih =>
    by_cases h1 : kv.1 = k
    · subst h1
      simp [winsert, wlookup, Ne.symm h]
    · by_cases h2 : kv.1 = k'
      · simp [winsert, h1, wlookup, h2, h]
      · simp [winsert, h1, wlookup, h2, h, ih]

theorem wlookup_werase_self (m : WMap) (k : WKey) :
    wlookup (werase m k) k = none := by
  induction m with
  | nil => simp [werase, wlookup]
  | cons kv rest ih =>
    by_cases h : kv.1 = k
    · simp [werase, h, ih]
    · simp [werase, h, wlookup, ih]

theorem wlookup_werase_ne (m : WMap) (k k' : WKey) (h : k' ≠ k) :
    wlookup (werase m k) k' = wlookup m k' := by
  induction m with
  | nil => simp [werase]
  | cons kv rest ih =>
    by_cases h1 : kv.1 = k
    · subst h1
      simp [werase, wlookup, Ne.symm h, ih]
    · by_cases h2 : kv.1 = k'
      · simp [werase, h1, wlookup, h2, h]
      · simp [werase, h1, wlookup, h2, h, ih]

theorem updateAt_length (l : List α) (n : Nat) (f : α → α) :
    (updateAt l n f).length = l.length := by
  induction l generalizing n with
  | nil => rfl
  | cons x rest ih =>
    cases n with
    | zero => simp [updateAt]
    | succ n => simp [updateAt, ih]

theorem updateAt_append (xs : List α) (a : α) (rest : List α) (f : α → α) :
    updateAt (xs ++ a :: rest) xs.length f = xs ++ f a :: rest := by
  induction xs with
  | nil => rfl
  | cons x xs ih => simp [updateAt, ih]

theorem getD_append (xs : List α) (a : α) (rest : List α) (d : α) :
    (xs ++ a :: rest).getD xs.length d = a := by
  induction xs with
  | nil => rfl
  | cons x xs ih => simpa [List.getD] using ih

theorem eraseIdx_append (xs : List α) (a : α) (rest : List α) :
    (xs ++ a :: rest).eraseIdx xs.length = xs ++ rest := by
  induction xs with
  | nil => rfl
  | cons x xs ih => simp [List.eraseIdx, ih]

theorem length_append_two (xs : List α) (a b : α) :
    (xs ++ [a, b]).length - 2 = xs.length := by
  simp

theorem wlookup_foldl_erase2_of_ne (l : Nat) (n : Nat) (w0 : WMap) (k : WKey)
    (h : ∀ i, i < n → k ≠ WKey.gop l i ∧ k ≠ WKey.bn l i) :
    wlookup ((List.range n).foldl
      (fun w idx => werase (werase w (WKey.gop l idx)) (WKey.bn l idx)) w0) k =
    wlookup w0 k := by
  induction n with
  | zero => rfl
  | succ n ih =>
    rw [List.range_succ, List.foldl_append]
    simp only [List.foldl]
    rw [wlookup_werase_ne _ _ _ (h n (Nat.lt_succ_self n)).2,
      wlookup_werase_ne _ _ _ (h n (Nat.lt_succ_self n)).1]
    exact ih fun i hi => h i (Nat.lt_succ_of_lt hi)

theorem wlookup_foldl_erase2_gop (l : Nat) (n : Nat) (w0 : WMap) (i : Nat)
    (hi : i < n) :
    wlookup ((List.range n).foldl
      (fun w idx => werase (werase w (WKey.gop l idx)) (WKey.bn l idx)) w0)
      (WKey.gop l i) = none := by
  induction n with
  | zero => omega
  | succ n ih =>
    rw [List.range_succ, List.foldl_append]
    simp only [List.foldl]
    by_cases h : i = n
    · subst h
      rw [wlookup_werase_ne _ _ _ (by simp), wlookup_werase_self]
    · rw [wlookup_werase_ne _ _ _ (by simp),
        wlookup_werase_ne _ _ _ (by intro hc; injection hc with e1 e2; exact h e2)]
      exact ih (by omega)

theorem wlookup_foldl_erase2_bn (l : Nat) (n : Nat) (w0 : WMap) (i : Nat)
    (hi : i < n) :
    wlookup ((List.range n).foldl
      (fun w idx => werase (werase w (WKey.gop l idx)) (WKey.bn l idx)) w0)
      (WKey.bn l i) = none := by
  induction n with
  | zero => omega
  | succ n ih =>
    rw [List.range_succ, List.foldl_append]
    simp only [List.foldl]
    by_cases h : i = n
    · subst h
      rw [wlookup_werase_self]
    · rw [wlookup_werase_ne _ _ _ (by intro hc; injection hc with e1 e2; exact h e2),
        wlookup_werase_ne _ _ _ (by simp)]
      exact ih (by omega)

theorem wlookup_foldl_erase1_of_ne (l : Nat) (n : Nat) (w0 : WMap) (k : WKey)
    (h : ∀ i, i < n → k ≠ WKey.gop l i) :
    wlookup ((List.range n).foldl (fun o idx => werase o (WKey.gop l idx)) w0) k =
    wlookup w0 k := by
  induction n with
  | zero => rfl
  | succ n ih =>
    rw [List.range_succ, List.foldl_append]
    simp only [List.foldl]
    rw [wlookup_werase_ne _ _ _ (h n (Nat.lt_succ_self n))]
    exact ih fun i hi => h i (Nat.lt_succ_of_lt hi)

theorem wlookup_foldl_erase1_gop (l : Nat) (n : Nat) (w0 : WMap) (i : Nat)
    (hi : i < n) :
    wlookup ((List.range n).foldl (fun o idx => werase o (WKey.gop l idx)) w0)
      (WKey.gop l i) = none := by
  induction n with
  | zero => omega
  | succ n ih =>
    rw [List.range_succ, List.foldl_append]
    simp only [List.foldl]
    by_cases h : i = n
    · subst h
      rw [wlookup_werase_self]
    · rw [wlookup_werase_ne _ _ _ (by intro hc; injection hc with e1 e2; exact h e2)]
      exact ih (by omega)

/-! ### Field-preservation lemmas for the state mutators -/

@[simp] theorem prepState_layer_iter (p : Params) (l j : Nat) (ts : TrainState) :
    (prepState p l j ts).layer_iter = ts.layer_iter := by
  unfold prepState; split <;> rfl

@[simp] theorem prepState_block_iter (p : Params) (l j : Nat) (ts : TrainState) :
    (prepState p l j ts).block_iter = ts.block_iter := by
  unfold prepState; split <;> rfl

@[simp] theorem prepState_is_finished (p : Params) (l j : Nat) (ts : TrainState) :
    (prepState p l j ts).is_finished = ts.is_finished := by
  unfold prepState; split <;> rfl

@[simp] theorem prepState_weights (p : Params) (l j : Nat) (ts : TrainState) :
    (prepState p l j ts).weights = ts.weights := by
  unfold prepState; split <;> rfl

@[simp] theorem prepState_ops (p : Params) (l j : Nat) (ts : TrainState) :
    (prepState p l j ts).op_set_indices = ts.op_set_indices := by
  unfold prepState; split <;> rfl

@[simp] theorem prepState_bow (p : Params) (l j : Nat) (ts : TrainState) :
    (prepState p l j ts).block_output_weight = ts.block_output_weight := by
  unfold prepState; split <;> rfl

@[simp] theorem prepState_low (p : Params) (l j : Nat) (ts : TrainState) :
    (prepState p l j ts).layer_output_weight = ts.layer_output_weight := by
  unfold prepState; split <;> rfl

theorem prepState_pos (p : Params) (l j : Nat) (ts : TrainState) (h : j ≠ 0) :
    prepState p l j ts = ts := by
  unfold prepState; simp [h]

@[simp] theorem blockAttempt_layer_iter (env : Env) (p : Params) (l j : Nat)
    (ts : TrainState) : (blockAttempt env p l j ts).layer_iter = ts.layer_iter := by
  simp [blockAttempt, addBlock]

@[simp] theorem blockAttempt_block_iter (env : Env) (p : Params) (l j : Nat)
    (ts : TrainState) : (blockAttempt env p l j ts).block_iter = ts.block_iter := by
  simp [blockAttempt, addBlock]

@[simp] theorem blockAttempt_is_finished (env : Env) (p : Params) (l j : Nat)
    (ts : TrainState) : (blockAttempt env p l j ts).is_finished = ts.is_finished := by
  simp [blockAttempt, addBlock]

@[simp] theorem blockAttempt_bow (env : Env) (p : Params) (l j : Nat)
    (ts : TrainState) :
    (blockAttempt env p l j ts).block_output_weight = ts.block_output_weight := by
  simp [blockAttempt, addBlock]

@[simp] theorem blockAttempt_low (env : Env) (p : Params) (l j : Nat)
    (ts : TrainState) :
    (blockAttempt env p l j ts).layer_output_weight = ts.layer_output_weight := by
  simp [blockAttempt, addBlock]

@[simp] theorem blockAttempt_history (env : Env) (p : Params) (l j : Nat)
    (ts : TrainState) : (blockAttempt env p l j ts).history = (prepState p l j ts).history := by
  simp [blockAttempt, addBlock]

@[simp] theorem blockAttempt_measure (env : Env) (p : Params) (l j : Nat)
    (ts : TrainState) : (blockAttempt env p l j ts).measure = (prepState p l j ts).measure := by
  simp [blockAttempt, addBlock]

@[simp] theorem blockRollback_layer_iter (l j : Nat) (ts : TrainState) :
    (blockRollback l j ts).layer_iter = ts.layer_iter + 1 := rfl

@[simp] theorem blockRollback_block_iter (l j : Nat) (ts : TrainState) :
    (blockRollback l j ts).block_iter = 0 := rfl

@[simp] theorem blockRollback_is_finished (l j : Nat) (ts : TrainState) :
    (blockRollback l j ts).is_finished = ts.is_finished := rfl

@[simp] theorem blockRollback_history (l j : Nat) (ts : TrainState) :
    (blockRollback l j ts).history = ts.history := rfl

@[simp] theorem blockRollback_measure (l j : Nat) (ts : TrainState) :
    (blockRollback l j ts).measure = ts.measure := rfl

@[simp] theorem blockRollback_low (l j : Nat) (ts : TrainState) :
    (blockRollback l j ts).layer_output_weight = ts.layer_output_weight := rfl

@[simp] theorem blockCommit_layer_iter (p : Params) (l j : Nat) (m : Int) (h : Nat)
    (ts : TrainState) : (blockCommit p l j m h ts).layer_iter = ts.layer_iter := rfl

@[simp] theorem blockCommit_block_iter (p : Params) (l j : Nat) (m : Int) (h : Nat)
    (ts : TrainState) :
    (blockCommit p l j m h ts).block_iter = if j = p.max_block - 1 then 0 else j + 1 := rfl

@[simp] theorem blockCommit_is_finished (p : Params) (l j : Nat) (m : Int) (h : Nat)
    (ts : TrainState) : (blockCommit p l j m h ts).is_finished = ts.is_finished := rfl

@[simp] theorem blockCommit_topology (p : Params) (l j : Nat) (m : Int) (h : Nat)
    (ts : TrainState) : (blockCommit p l j m h ts).topology = ts.topology := rfl

@[simp] theorem blockCommit_weights (p : Params) (l j : Nat) (m : Int) (h : Nat)
    (ts : TrainState) : (blockCommit p l j m h ts).weights = ts.weights := rfl

@[simp] theorem blockCommit_ops (p : Params) (l j : Nat) (m : Int) (h : Nat)
    (ts : TrainState) : (blockCommit p l j m h ts).op_set_indices = ts.op_set_indices := rfl

@[simp] theorem blockCommit_low (p : Params) (l j : Nat) (m : Int) (h : Nat)
    (ts : TrainState) : (blockCommit p l j m h ts).layer_output_weight = ts.layer_output_weight := rfl

@[simp] theorem layerRollback_layer_iter (l : Nat) (ts : TrainState) :
    (layerRollback l ts).layer_iter = ts.layer_iter := rfl

@[simp] theorem layerRollback_block_iter (l : Nat) (ts : TrainState) :
    (layerRollback l ts).block_iter = ts.block_iter := rfl

@[simp] theorem layerRollback_is_finished (l : Nat) (ts : TrainState) :
    (layerRollback l ts).is_finished = ts.is_finished := rfl

@[simp] theorem layerRollback_measure (l : Nat) (ts : TrainState) :
    (layerRollback l ts).measure = ts.measure := rfl

@[simp] theorem layerRollback_history (l : Nat) (ts : TrainState) :
    (layerRollback l ts).history = ts.history.dropLast := rfl

/-! ### Case analysis for one block iteration -/

theorem blockStep_eq_err (env : Env) (p : Params) (l j : Nat) (s : St) (e : Nat)
    (hbu : env.blockUpdate (blockAttempt env p l j s.ts).topology
      (blockAttempt env p l j s.ts).op_set_indices
      (blockAttempt env p l j s.ts).weights p (blockNames l j) = Except.error e) :
    blockStep env p l j s =
      ({ ts := blockAttempt env p l j s.ts, cuda := s.cuda }, [], BEx.err failMsg) := by
  simp [blockStep, hbu]

theorem blockStep_eq_stop (env : Env) (p : Params) (l j : Nat) (s : St)
    (m : Int) (h : Nat) (w2 : WMap)
    (hbu : env.blockUpdate (blockAttempt env p l j s.ts).topology
      (blockAttempt env p l j s.ts).op_set_indices
      (blockAttempt env p l j s.ts).weights p (blockNames l j) = Except.ok (m, h, w2))
    (hj : 0 < j)
    (hc : check_convergence m
      (((blockAttempt env p l j s.ts).measure.getD l []).getD (j - 1) 0)
      p.direction p.block_threshold = true) :
    blockStep env p l j s =
      ({ ts := blockRollback l j { blockAttempt env p l j s.ts with weights := w2 },
         cuda := s.cuda },
       [blockRollback l j { blockAttempt env p l j s.ts with weights := w2 }],
       BEx.stop) := by
  simp only [blockStep, hbu]
  rw [if_pos ⟨hj, by simpa using hc⟩]

theorem blockStep_eq_next (env : Env) (p : Params) (l j : Nat) (s : St)
    (m : Int) (h : Nat) (w2 : WMap)
    (hbu : env.blockUpdate (blockAttempt env p l j s.ts).topology
      (blockAttempt env p l j s.ts).op_set_indices
      (blockAttempt env p l j s.ts).weights p (blockNames l j) = Except.ok (m, h, w2))
    (hc : ¬(0 < j ∧ check_convergence m
      (((blockAttempt env p l j s.ts).measure.getD l []).getD (j - 1) 0)
      p.direction p.block_threshold = true)) :
    blockStep env p l j s =
      ({ ts := blockCommit p l j m h { blockAttempt env p l j s.ts with weights := w2 },
         cuda := s.cuda },
       [blockCommit p l j m h { blockAttempt env p l j s.ts with weights := w2 }],
       BEx.next) := by
  simp only [blockStep, hbu]
  rw [if_neg (by simpa using hc)]

/-- Exhaustive case analysis of one block iteration: it either aborts on a
collaborator error (no checkpoint), rolls the block back (one
checkpoint, stop), or commits it (one checkpoint, continue). -/
theorem blockStep_shape (env : Env) (p : Params) (l j : Nat) (s : St) :
    (∃ e, env.blockUpdate (blockAttempt env p l j s.ts).topology
        (blockAttempt env p l j s.ts).op_set_indices
        (blockAttempt env p l j s.ts).weights p (blockNames l j) = Except.error e ∧
      blockStep env p l j s =
        ({ ts := blockAttempt env p l j s.ts, cuda := s.cuda }, [], BEx.err failMsg)) ∨
    (∃ m h w2, env.blockUpdate (blockAttempt env p l j s.ts).topology
        (blockAttempt env p l j s.ts).op_set_indices
        (blockAttempt env p l j s.ts).weights p (blockNames l j) = Except.ok (m, h, w2) ∧
      ((0 < j ∧
        blockStep env p l j s =
          ({ ts := blockRollback l j { blockAttempt env p l j s.ts with weights := w2 },
             cuda := s.cuda },
           [blockRollback l j { blockAttempt env p l j s.ts with weights := w2 }],
           BEx.stop)) ∨
       blockStep env p l j s =
         ({ ts := blockCommit p l j m h { blockAttempt env p l j s.ts with weights := w2 },
            cuda := s.cuda },
          [blockCommit p l j m h { blockAttempt env p l j s.ts with weights := w2 }],
          BEx.next))) := by
  cases hbu : env.blockUpdate (blockAttempt env p l j s.ts).topology
      (blockAttempt env p l j s.ts).op_set_indices
      (blockAttempt env p l j s.ts).weights p (blockNames l j) with
  | error e => exact Or.inl ⟨e, rfl, blockStep_eq_err env p l j s e hbu⟩
  | ok r =>
    obtain ⟨m, h, w2⟩ := r
    refine Or.inr ⟨m, h, w2, rfl, ?_⟩
    by_cases hj : 0 < j
    · by_cases hc : check_convergence m
        (((blockAttempt env p l j s.ts).measure.getD l []).getD (j - 1) 0)
        p.direction p.block_threshold = true
      · exact Or.inl ⟨hj, blockStep_eq_stop env p l j s m h w2 hbu hj hc⟩
      · exact Or.inr (blockStep_eq_next env p l j s m h w2 hbu (by tauto))
    · exact Or.inr (blockStep_eq_next env p l j s m h w2 hbu (by tauto))

/-! ### Equation lemmas for the loops -/

theorem runBlocks_nil (env : Env) (p : Params) (l : Nat) (s : St) :
    runBlocks env p l [] s = (s, [], BEx.next) := rfl

theorem runBlocks_cons_err (env : Env) (p : Params) (l j : Nat) (rest : List Nat)
    (s s1 : St) (cps : List TrainState) (e : String)
    (h : blockStep env p l j s = (s1, cps, BEx.err e)) :
    runBlocks env p l (j :: rest) s = (s1, cps, BEx.err e) := by
  simp [runBlocks, h]

theorem runBlocks_cons_stop (env : Env) (p : Params) (l j : Nat) (rest : List Nat)
    (s s1 : St) (cps : List TrainState)
    (h : blockStep env p l j s = (s1, cps, BEx.stop)) :
    runBlocks env p l (j :: rest) s = (s1, cps, BEx.stop) := by
  simp [runBlocks, h]

theorem runBlocks_cons_next (env : Env) (p : Params) (l j : Nat) (rest : List Nat)
    (s s1 : St) (cps : List TrainState)
    (h : blockStep env p l j s = (s1, cps, BEx.next)) :
    runBlocks env p l (j :: rest) s =
      ((runBlocks env p l rest s1).1,
       cps ++ (runBlocks env p l rest s1).2.1,
       (runBlocks env p l rest s1).2.2) := by
  simp [runBlocks, h]

theorem layerBody_eq_err (env : Env) (p : Params) (l : Nat) (s s1 : St)
    (cps : List TrainState) (e : String)
    (hr : runBlocks env p l (List.range' s.ts.block_iter (p.max_block - s.ts.block_iter)) s
      = (s1, cps, BEx.err e)) :
    layerBody env p l s = (s1, cps, LEx.err e) := by
  simp [layerBody, hr]

theorem layerBody_eq_brk (env : Env) (p : Params) (l : Nat) (s s1 : St)
    (cps : List TrainState) (ex : BEx)
    (hr : runBlocks env p l (List.range' s.ts.block_iter (p.max_block - s.ts.block_iter)) s
      = (s1, cps, ex))
    (hne : ∀ e, ex ≠ BEx.err e)
    (hc : layerConvCond p l s1.ts = true) :
    layerBody env p l s = ({ s1 with ts := layerRollback l s1.ts }, cps, LEx.brk) := by
  cases ex with
  | err e => exact absurd rfl (hne e)
  | stop => simp [layerBody, hr, hc]
  | next => simp [layerBody, hr, hc]

theorem layerBody_eq_cont (env : Env) (p : Params) (l : Nat) (s s1 : St)
    (cps : List TrainState) (ex : BEx)
    (hr : runBlocks env p l (List.range' s.ts.block_iter (p.max_block - s.ts.block_iter)) s
      = (s1, cps, ex))
    (hne : ∀ e, ex ≠ BEx.err e)
    (hc : layerConvCond p l s1.ts = false) :
    layerBody env p l s = ({ s1 with ts := layerAdvance ex s1.ts }, cps, LEx.cont) := by
  cases ex with
  | err e => exact absurd rfl (hne e)
  | stop => simp [layerBody, hr, hc]
  | next => simp [layerBody, hr, hc]

theorem outerLoop_nil (env : Env) (p : Params) (s : St) :
    outerLoop env p [] s = (s, [], OEx.done) := rfl

theorem outerLoop_cons_err (env : Env) (p : Params) (l : Nat) (rest : List Nat)
    (s s1 : St) (cps : List TrainState) (e : String)
    (h : layerBody env p l s = (s1, cps, LEx.err e)) :
    outerLoop env p (l :: rest) s = (s1, cps, OEx.err e) := by
  simp [outerLoop, h]

theorem outerLoop_cons_brk (env : Env) (p : Params) (l : Nat) (rest : List Nat)
    (s s1 : St) (cps : List TrainState)
    (h : layerBody env p l s = (s1, cps, LEx.brk)) :
    outerLoop env p (l :: rest) s = (s1, cps, OEx.brk) := by
  simp [outerLoop, h]

theorem outerLoop_cons_cont (env : Env) (p : Params) (l : Nat) (rest : List Nat)
    (s s1 : St) (cps : List TrainState)
    (h : layerBody env p l s = (s1, cps, LEx.cont)) :
    outerLoop env p (l :: rest) s =
      ((outerLoop env p rest s1).1,
       cps ++ (outerLoop env p rest s1).2.1,
       (outerLoop env p rest s1).2.2) := by
  simp [outerLoop, h]

/-! ### The ambient computation environment is restored around every block
and the growth computation does not depend on it -/

theorem blockStep_cuda (env : Env) (p : Params) (l j : Nat) (s : St) :
    (blockStep env p l j s).1.cuda = s.cuda := by
  rcases blockStep_shape env p l j s with ⟨e, _, heq⟩ | ⟨m, h, w2, _, ⟨_, heq⟩ | heq⟩ <;>
    rw [heq]

theorem blockStep_cuda_indep (env : Env) (p : Params) (l j : Nat)
    (ts : TrainState) (c c' : Nat) :
    (blockStep env p l j { ts := ts, cuda := c }).1.ts
      = (blockStep env p l j { ts := ts, cuda := c' }).1.ts ∧
    (blockStep env p l j { ts := ts, cuda := c }).2
      = (blockStep env p l j { ts := ts, cuda := c' }).2 := by
  cases hbu : env.blockUpdate (blockAttempt env p l j ts).topology
      (blockAttempt env p l j ts).op_set_indices
      (blockAttempt env p l j ts).weights p (blockNames l j) with
  | error e =>
    rw [blockStep_eq_err env p l j { ts := ts, cuda := c } e hbu,
      blockStep_eq_err env p l j { ts := ts, cuda := c' } e hbu]
    exact ⟨rfl, rfl⟩
  | ok r =>
    obtain ⟨m, h, w2⟩ := r
    by_cases hj : 0 < j
    · by_cases hc : check_convergence m
        (((blockAttempt env p l j ts).measure.getD l []).getD (j - 1) 0)
        p.direction p.block_threshold = true
      · rw [blockStep_eq_stop env p l j { ts := ts, cuda := c } m h w2 hbu hj hc,
          blockStep_eq_stop env p l j { ts := ts, cuda := c' } m h w2 hbu hj hc]
        exact ⟨rfl, rfl⟩
      · rw [blockStep_eq_next env p l j { ts := ts, cuda := c } m h w2 hbu (by tauto),
          blockStep_eq_next env p l j { ts := ts, cuda := c' } m h w2 hbu (by tauto)]
        exact ⟨rfl, rfl⟩
    · rw [blockStep_eq_next env p l j { ts := ts, cuda := c } m h w2 hbu (by tauto),
        blockStep_eq_next env p l j { ts := ts, cuda := c' } m h w2 hbu (by tauto)]
      exact ⟨rfl, rfl⟩

theorem runBlocks_cuda (env : Env) (p : Params) (l : Nat) (js : List Nat) :
    ∀ s : St, (runBlocks env p l js s).1.cuda = s.cuda := by
  induction js with
  | nil => intro s; rfl
  | cons j rest ih =>
    intro s
    rcases hb : blockStep env p l j s with ⟨s1, cps, ex⟩
    have hcu : s1.cuda = s.cuda := by
      have := blockStep_cuda env p l j s
      rw [hb] at this
      exact this
    cases ex with
    | err e => rw [runBlocks_cons_err env p l j rest s s1 cps e hb]; exact hcu
    | stop => rw [runBlocks_cons_stop env p l j rest s s1 cps hb]; exact hcu
    | next =>
      rw [runBlocks_cons_next env p l j rest s s1 cps hb]
      rw [ih s1]
      exact hcu

theorem runBlocks_cuda_indep (env : Env) (p : Params) (l : Nat) (js : List Nat) :
    ∀ (ts : TrainState) (c c' : Nat),
    (runBlocks env p l js { ts := ts, cuda := c }).1.ts
      = (runBlocks env p l js { ts := ts, cuda := c' }).1.ts ∧
    (runBlocks env p l js { ts := ts, cuda := c }).2.1
      = (runBlocks env p l js { ts := ts, cuda := c' }).2.1 ∧
    (runBlocks env p l js { ts := ts, cuda := c }).2.2
      = (runBlocks env p l js { ts := ts, cuda := c' }).2.2 := by
  induction js with
  | nil => intro ts c c'; exact ⟨rfl, rfl, rfl⟩
  | cons j rest ih =>
    intro ts c c'
    rcases hb : blockStep env p l j { ts := ts, cuda := c } with ⟨s1, cps, ex⟩
    rcases hb' : blockStep env p l j { ts := ts, cuda := c' } with ⟨s1', cps', ex'⟩
    obtain ⟨hts, hrest⟩ := blockStep_cuda_indep env p l j ts c c'
    rw [hb, hb'] at hts hrest
    simp only [Prod.mk.injEq] at hts hrest
    obtain ⟨hcps, hex⟩ := hrest
    subst hcps; subst hex
    have e1 : ({ ts := s1.ts, cuda := s1.cuda } : St) = s1 := rfl
    have e2 : ({ ts := s1.ts, cuda := s1'.cuda } : St) = s1' := by rw [hts]
    cases ex with
    | err e =>
      rw [runBlocks_cons_err env p l j rest _ s1 cps e hb,
        runBlocks_cons_err env p l j rest _ s1' cps e hb']
      exact ⟨hts, rfl, rfl⟩
    | stop =>
      rw [runBlocks_cons_stop env p l j rest _ s1 cps hb,
        runBlocks_cons_stop env p l j rest _ s1' cps hb']
      exact ⟨hts, rfl, rfl⟩
    | next =>
      rw [runBlocks_cons_next env p l j rest _ s1 cps hb,
        runBlocks_cons_next env p l j rest _ s1' cps hb']
      obtain ⟨i1, i2, i3⟩ := ih s1.ts s1.cuda s1'.cuda
      rw [e1, e2] at i1 i2 i3
      exact ⟨i1, by rw [i2], i3⟩

theorem layerBody_cuda (env : Env) (p : Params) (l : Nat) (s : St) :
    (layerBody env p l s).1.cuda = s.cuda := by
  rcases hr : runBlocks env p l (List.range' s.ts.block_iter (p.max_block - s.ts.block_iter)) s
    with ⟨s1, cps, ex⟩
  have hcu : s1.cuda = s.cuda := by
    have := runBlocks_cuda env p l (List.range' s.ts.block_iter (p.max_block - s.ts.block_iter)) s
    rw [hr] at this
    exact this
  cases ex with
  | err e => rw [layerBody_eq_err env p l s s1 cps e hr]; exact hcu
  | stop =>
    by_cases hc : layerConvCond p l s1.ts = true
    · rw [layerBody_eq_brk env p l s s1 cps BEx.stop hr (by intro e h; cases h) hc]; exact hcu
    · rw [layerBody_eq_cont env p l s s1 cps BEx.stop hr (by intro e h; cases h)
        (by simpa using hc)]
      exact hcu
  | next =>
    by_cases hc : layerConvCond p l s1.ts = true
    · rw [layerBody_eq_brk env p l s s1 cps BEx.next hr (by intro e h; cases h) hc]; exact hcu
    · rw [layerBody_eq_cont env p l s s1 cps BEx.next hr (by intro e h; cases h)
        (by simpa using hc)]
      exact hcu

theorem layerBody_cuda_indep (env : Env) (p : Params) (l : Nat)
    (ts : TrainState) (c c' : Nat) :
    (layerBody env p l { ts := ts, cuda := c }).1.ts
      = (layerBody env p l { ts := ts, cuda := c' }).1.ts ∧
    (layerBody env p l { ts := ts, cuda := c }).2.1
      = (layerBody env p l { ts := ts, cuda := c' }).2.1 ∧
    (layerBody env p l { ts := ts, cuda := c }).2.2
      = (layerBody env p l { ts := ts, cuda := c' }).2.2 := by
  rcases hr : runBlocks env p l (List.range' ts.block_iter (p.max_block - ts.block_iter))
    { ts := ts, cuda := c } with ⟨s1, cps, ex⟩
  rcases hr' : runBlocks env p l (List.range' ts.block_iter (p.max_block - ts.block_iter))
    { ts := ts, cuda := c' } with ⟨s1', cps', ex'⟩
  obtain ⟨i1, i2, i3⟩ := runBlocks_cuda_indep env p l
    (List.range' ts.block_iter (p.max_block - ts.block_iter)) ts c c'
  rw [hr, hr'] at i1 i2 i3
  simp only at i1 i2 i3
  subst i2; subst i3
  cases ex with
  | err e =>
    rw [layerBody_eq_err env p l { ts := ts, cuda := c } s1 cps e hr,
      layerBody_eq_err env p l { ts := ts, cuda := c' } s1' cps e hr']
    exact ⟨i1, rfl, rfl⟩
  | stop =>
    by_cases hc : layerConvCond p l s1.ts = true
    · rw [layerBody_eq_brk env p l { ts := ts, cuda := c } s1 cps BEx.stop hr
        (by intro e h; cases h) hc,
        layerBody_eq_brk env p l { ts := ts, cuda := c' } s1' cps BEx.stop hr'
        (by intro e h; cases h) (by rw [← i1]; exact hc)]
      exact ⟨by simp [i1], rfl, rfl⟩
    · rw [layerBody_eq_cont env p l { ts := ts, cuda := c } s1 cps BEx.stop hr
        (by intro e h; cases h) (by simpa using hc),
        layerBody_eq_cont env p l { ts := ts, cuda := c' } s1' cps BEx.stop hr'
        (by intro e h; cases h) (by rw [← i1]; simpa using hc)]
      exact ⟨by simp [i1], rfl, rfl⟩
  | next =>
    by_cases hc : layerConvCond p l s1.ts = true
    · rw [layerBody_eq_brk env p l { ts := ts, cuda := c } s1 cps BEx.next hr
        (by intro e h; cases h) hc,
        layerBody_eq_brk env p l { ts := ts, cuda := c' } s1' cps BEx.next hr'
        (by intro e h; cases h) (by rw [← i1]; exact hc)]
      exact ⟨by simp [i1], rfl, rfl⟩
    · rw [layerBody_eq_cont env p l { ts := ts, cuda := c } s1 cps BEx.next hr
        (by intro e h; cases h) (by simpa using hc),
        layerBody_eq_cont env p l { ts := ts, cuda := c' } s1' cps BEx.next hr'
        (by intro e h; cases h) (by rw [← i1]; simpa using hc)]
      exact ⟨by simp [i1], rfl, rfl⟩

theorem outerLoop_cuda_indep (env : Env) (p : Params) (ls : List Nat) :
    ∀ (ts : TrainState) (c c' : Nat),
    (outerLoop env p ls { ts := ts, cuda := c }).1.ts
      = (outerLoop env p ls { ts := ts, cuda := c' }).1.ts ∧
    (outerLoop env p ls { ts := ts, cuda := c }).2.1
      = (outerLoop env p ls { ts := ts, cuda := c' }).2.1 ∧
    (outerLoop env p ls { ts := ts, cuda := c }).2.2
      = (outerLoop env p ls { ts := ts, cuda := c' }).2.2 := by
  induction ls with
  | nil => intro ts c c'; exact ⟨rfl, rfl, rfl⟩
  | cons l rest ih =>
    intro ts c c'
    rcases hb : layerBody env p l { ts := ts, cuda := c } with ⟨s1, cps, ex⟩
    rcases hb' : layerBody env p l { ts := ts, cuda := c' } with ⟨s1', cps', ex'⟩
    obtain ⟨i1, i2, i3⟩ := layerBody_cuda_indep env p l ts c c'
    rw [hb, hb'] at i1 i2 i3
    simp only at i1 i2 i3
    subst i2; subst i3
    have e1 : ({ ts := s1.ts, cuda := s1.cuda } : St) = s1 := rfl
    have e2 : ({ ts := s1.ts, cuda := s1'.cuda } : St) = s1' := by rw [i1]
    cases ex with
    | err e =>
      rw [outerLoop_cons_err env p l rest _ s1 cps e hb,
        outerLoop_cons_err env p l rest _ s1' cps e hb']
      exact ⟨i1, rfl, rfl⟩
    | brk =>
      rw [outerLoop_cons_brk env p l rest _ s1 cps hb,
        outerLoop_cons_brk env p l rest _ s1' cps hb']
      exact ⟨i1, rfl, rfl⟩
    | cont =>
      rw [outerLoop_cons_cont env p l rest _ s1 cps hb,
        outerLoop_cons_cont env p l rest _ s1' cps hb']
      obtain ⟨j1, j2, j3⟩ := ih s1.ts s1.cuda s1'.cuda
      rw [e1, e2] at j1 j2 j3
      exact ⟨j1, by rw [j2], j3⟩

/-! ### Cursor and flag tracking through the loops -/

@[simp] theorem layerAdvance_is_finished (ex : BEx) (ts : TrainState) :
    (layerAdvance ex ts).is_finished = ts.is_finished := by
  unfold layerAdvance; split <;> rfl

@[simp] theorem layerAdvance_block_iter (ex : BEx) (ts : TrainState) :
    (layerAdvance ex ts).block_iter = ts.block_iter := by
  unfold layerAdvance; split <;> rfl

@[simp] theorem layerAdvance_measure (ex : BEx) (ts : TrainState) :
    (layerAdvance ex ts).measure = ts.measure := by
  unfold layerAdvance; split <;> rfl

@[simp] theorem layerAdvance_history (ex : BEx) (ts : TrainState) :
    (layerAdvance ex ts).history = ts.history := by
  unfold layerAdvance; split <;> rfl

@[simp] theorem layerAdvance_topology (ex : BEx) (ts : TrainState) :
    (layerAdvance ex ts).topology = ts.topology := by
  unfold layerAdvance; split <;> rfl

theorem layerAdvance_layer_iter (ex : BEx) (ts : TrainState) :
    (layerAdvance ex ts).layer_iter
      = if ex = BEx.stop then ts.layer_iter else ts.layer_iter + 1 := by
  unfold layerAdvance; split <;> simp_all

theorem blockStep_facts (env : Env) (p : Params) (l j : Nat) (s : St) :
    (blockStep env p l j s).1.ts.is_finished = s.ts.is_finished ∧
    ((blockStep env p l j s).2.2 = BEx.next →
      (blockStep env p l j s).1.ts.layer_iter = s.ts.layer_iter ∧
      (blockStep env p l j s).1.ts.block_iter = (if j = p.max_block - 1 then 0 else j + 1) ∧
      (blockStep env p l j s).2.1 = [(blockStep env p l j s).1.ts]) ∧
    ((blockStep env p l j s).2.2 = BEx.stop →
      0 < j ∧
      (blockStep env p l j s).1.ts.layer_iter = s.ts.layer_iter + 1 ∧
      (blockStep env p l j s).1.ts.block_iter = 0 ∧
      (blockStep env p l j s).2.1 = [(blockStep env p l j s).1.ts]) ∧
    (∀ e, (blockStep env p l j s).2.2 = BEx.err e →
      (blockStep env p l j s).1.ts.block_iter = s.ts.block_iter ∧
      (blockStep env p l j s).2.1 = []) := by
  rcases blockStep_shape env p l j s with ⟨e, _, heq⟩ | ⟨m, h, w2, _, ⟨hj, heq⟩ | heq⟩ <;>
    rw [heq]
  · refine ⟨by simp, ?_, ?_, ?_⟩
    · intro hx
      cases hx
    · intro hx
      cases hx
    · intro e2 hx
      cases hx
      exact ⟨by simp, rfl⟩
  · refine ⟨by simp, ?_, ?_, ?_⟩
    · intro hx
      cases hx
    · intro hx
      exact ⟨hj, by simp, by simp, by simp⟩
    · intro e2 hx
      cases hx
  · refine ⟨by simp, ?_, ?_, ?_⟩
    · intro hx
      exact ⟨by simp, by simp, by simp⟩
    · intro hx
      cases hx
    · intro e2 hx
      cases hx

theorem runBlocks_is_finished (env : Env) (p : Params) (l : Nat) (js : List Nat) :
    ∀ s : St, (runBlocks env p l js s).1.ts.is_finished = s.ts.is_finished := by
  induction js with
  | nil => intro s; rfl
  | cons j rest ih =>
    intro s
    rcases hb : blockStep env p l j s with ⟨s1, cps, ex⟩
    have hf : s1.ts.is_finished = s.ts.is_finished := by
      have := (blockStep_facts env p l j s).1
      rw [hb] at this; exact this
    cases ex with
    | err e => rw [runBlocks_cons_err env p l j rest s s1 cps e hb]; exact hf
    | stop => rw [runBlocks_cons_stop env p l j rest s s1 cps hb]; exact hf
    | next =>
      rw [runBlocks_cons_next env p l j rest s s1 cps hb]
      rw [ih s1]
      exact hf

theorem runBlocks_cursor (env : Env) (p : Params) (l : Nat) (js : List Nat) :
    ∀ s : St,
    ((runBlocks env p l js s).2.2 = BEx.next →
      (runBlocks env p l js s).1.ts.layer_iter = s.ts.layer_iter) ∧
    ((runBlocks env p l js s).2.2 = BEx.stop →
      (runBlocks env p l js s).1.ts.layer_iter = s.ts.layer_iter + 1 ∧
      (runBlocks env p l js s).1.ts.block_iter = 0) := by
  induction js with
  | nil => intro s; exact ⟨fun _ => rfl, fun h => by cases h⟩
  | cons j rest ih =>
    intro s
    rcases hb : blockStep env p l j s with ⟨s1, cps, ex⟩
    obtain ⟨_, hnext, hstop, _⟩ := blockStep_facts env p l j s
    rw [hb] at hnext hstop
    simp only at hnext hstop
    cases ex with
    | err e =>
      rw [runBlocks_cons_err env p l j rest s s1 cps e hb]
      exact ⟨(fun hx => by cases hx), (fun hx => by cases hx)⟩
    | stop =>
      rw [runBlocks_cons_stop env p l j rest s s1 cps hb]
      obtain ⟨_, a1, a2, _⟩ := hstop rfl
      exact ⟨(fun hx => by cases hx), (fun _ => ⟨a1, a2⟩)⟩
    | next =>
      rw [runBlocks_cons_next env p l j rest s s1 cps hb]
      obtain ⟨a1, _, _⟩ := hnext rfl
      obtain ⟨i1, i2⟩ := ih s1
      constructor
      · intro hx
        rw [i1 hx, a1]
      · intro hx
        obtain ⟨b1, b2⟩ := i2 hx
        rw [b1, a1]
        exact ⟨rfl, b2⟩

theorem runBlocks_block_iter_le (env : Env) (p : Params) (l : Nat) :
    ∀ (n a : Nat) (s : St), a + n = p.max_block → s.ts.block_iter ≤ p.max_block →
    (runBlocks env p l (List.range' a n) s).1.ts.block_iter ≤ p.max_block := by
  intro n
  induction n with
  | zero => intro a s _ hs; exact hs
  | succ n ih =>
    intro a s ha hs
    rw [List.range'_succ]
    rcases hb : blockStep env p l a s with ⟨s1, cps, ex⟩
    obtain ⟨_, hnext, hstop, herr⟩ := blockStep_facts env p l a s
    rw [hb] at hnext hstop herr
    simp only at hnext hstop herr
    cases ex with
    | err e =>
      rw [runBlocks_cons_err env p l a _ s s1 cps e hb]
      obtain ⟨b1, _⟩ := herr e rfl
      show s1.ts.block_iter ≤ p.max_block
      omega
    | stop =>
      rw [runBlocks_cons_stop env p l a _ s s1 cps hb]
      obtain ⟨_, _, b2, _⟩ := hstop rfl
      show s1.ts.block_iter ≤ p.max_block
      omega
    | next =>
      rw [runBlocks_cons_next env p l a _ s s1 cps hb]
      obtain ⟨_, b2, _⟩ := hnext rfl
      refine ih (a + 1) s1 (by omega) ?_
      rw [b2]
      split <;> omega

theorem layerBody_is_finished (env : Env) (p : Params) (l : Nat) (s : St) :
    (layerBody env p l s).1.ts.is_finished = s.ts.is_finished := by
  rcases hr : runBlocks env p l (List.range' s.ts.block_iter (p.max_block - s.ts.block_iter)) s
    with ⟨s1, cps, ex⟩
  have hf : s1.ts.is_finished = s.ts.is_finished := by
    have := runBlocks_is_finished env p l
      (List.range' s.ts.block_iter (p.max_block - s.ts.block_iter)) s
    rw [hr] at this; exact this
  cases ex with
  | err e => rw [layerBody_eq_err env p l s s1 cps e hr]; exact hf
  | stop =>
    by_cases hc : layerConvCond p l s1.ts = true
    · rw [layerBody_eq_brk env p l s s1 cps BEx.stop hr (by intro e h; cases h) hc]
      simpa using hf
    · rw [layerBody_eq_cont env p l s s1 cps BEx.stop hr (by intro e h; cases h)
        (by simpa using hc)]
      simpa using hf
  | next =>
    by_cases hc : layerConvCond p l s1.ts = true
    · rw [layerBody_eq_brk env p l s s1 cps BEx.next hr (by intro e h; cases h) hc]
      simpa using hf
    · rw [layerBody_eq_cont env p l s s1 cps BEx.next hr (by intro e h; cases h)
        (by simpa using hc)]
      simpa using hf

theorem layerBody_cont_cursor (env : Env) (p : Params) (l : Nat) (s : St)
    (hli : s.ts.layer_iter = l) (hmb : s.ts.block_iter ≤ p.max_block)
    (hcont : (layerBody env p l s).2.2 = LEx.cont) :
    (layerBody env p l s).1.ts.layer_iter = l + 1 ∧
    (layerBody env p l s).1.ts.block_iter ≤ p.max_block := by
  rcases hr : runBlocks env p l (List.range' s.ts.block_iter (p.max_block - s.ts.block_iter)) s
    with ⟨s1, cps, ex⟩
  have hble : s1.ts.block_iter ≤ p.max_block := by
    have := runBlocks_block_iter_le env p l (p.max_block - s.ts.block_iter)
      s.ts.block_iter s (by omega) hmb
    rw [hr] at this; exact this
  obtain ⟨hnext, hstop⟩ := runBlocks_cursor env p l
    (List.range' s.ts.block_iter (p.max_block - s.ts.block_iter)) s
  rw [hr] at hnext hstop
  simp only at hnext hstop
  cases ex with
  | err e =>
    rw [layerBody_eq_err env p l s s1 cps e hr] at hcont
    cases hcont
  | stop =>
    by_cases hc : layerConvCond p l s1.ts = true
    · rw [layerBody_eq_brk env p l s s1 cps BEx.stop hr (by intro e h; cases h) hc] at hcont
      cases hcont
    · rw [layerBody_eq_cont env p l s s1 cps BEx.stop hr (by intro e h; cases h)
        (by simpa using hc)]
      obtain ⟨a1, a2⟩ := hstop rfl
      constructor
      · simp [layerAdvance_layer_iter, a1, hli]
      · simpa using hble
  | next =>
    by_cases hc : layerConvCond p l s1.ts = true
    · rw [layerBody_eq_brk env p l s s1 cps BEx.next hr (by intro e h; cases h) hc] at hcont
      cases hcont
    · rw [layerBody_eq_cont env p l s s1 cps BEx.next hr (by intro e h; cases h)
        (by simpa using hc)]
      constructor
      · simp [layerAdvance_layer_iter, hnext rfl, hli]
      · simpa using hble

/-! ### Resumption: checkpoints with a nonzero block cursor are exact
snapshots whose re-run reproduces the rest of the computation -/

theorem runBlocks_resume (env : Env) (p : Params) (l : Nat) :
    ∀ (n a : Nat) (s : St),
    a + n = p.max_block →
    s.ts.layer_iter = l →
    s.ts.is_finished = false →
    ∀ c ∈ (runBlocks env p l (List.range' a n) s).2.1,
      c.block_iter ≠ 0 →
      c.layer_iter = l ∧ c.is_finished = false ∧
      ∀ cu, (runBlocks env p l (List.range' c.block_iter (p.max_block - c.block_iter))
               { ts := c, cuda := cu }).1.ts
              = (runBlocks env p l (List.range' a n) s).1.ts ∧
            (runBlocks env p l (List.range' c.block_iter (p.max_block - c.block_iter))
               { ts := c, cuda := cu }).2.2
              = (runBlocks env p l (List.range' a n) s).2.2 := by
  intro n
  induction n with
  | zero =>
    intro a s _ _ _ c hc
    rw [List.range'_zero, runBlocks_nil] at hc
    simp at hc
  | succ n ih =>
    intro a s ha hli hfin c hc hbne
    rw [List.range'_succ] at hc ⊢
    rcases hb : blockStep env p l a s with ⟨s1, cps1, ex⟩
    obtain ⟨hfinp, hnextf, hstopf, herrf⟩ := blockStep_facts env p l a s
    rw [hb] at hfinp hnextf hstopf herrf
    simp only at hfinp hnextf hstopf herrf
    cases ex with
    | err e =>
      rw [runBlocks_cons_err env p l a _ s s1 cps1 e hb] at hc
      obtain ⟨_, hcps⟩ := herrf e rfl
      simp only at hc
      rw [hcps] at hc
      simp at hc
    | stop =>
      rw [runBlocks_cons_stop env p l a _ s s1 cps1 hb] at hc
      obtain ⟨_, _, hbi, hcps⟩ := hstopf rfl
      simp only at hc
      rw [hcps] at hc
      simp at hc
      subst hc
      exact absurd hbi hbne
    | next =>
      rw [runBlocks_cons_next env p l a _ s s1 cps1 hb] at hc ⊢
      obtain ⟨hl1, hbi, hcps⟩ := hnextf rfl
      simp only at hc
      rw [hcps] at hc
      rcases List.mem_append.mp hc with hc1 | hc2
      · have hceq : c = s1.ts := by simpa using hc1
        subst hceq
        by_cases hlast : a = p.max_block - 1
        · rw [hbi] at hbne
          simp [hlast] at hbne
        · have hbi2 : s1.ts.block_iter = a + 1 := by rw [hbi]; simp [hlast]
          refine ⟨by rw [hl1, hli], by rw [hfinp]; exact hfin, ?_⟩
          intro cu
          have hn : p.max_block - (a + 1) = n := by omega
          rw [hbi2, hn]
          obtain ⟨i1, _, i3⟩ := runBlocks_cuda_indep env p l
            (List.range' (a + 1) n) s1.ts cu s1.cuda
          have es1 : ({ ts := s1.ts, cuda := s1.cuda } : St) = s1 := rfl
          rw [es1] at i1 i3
          exact ⟨i1, i3⟩
      · exact ih (a + 1) s1 (by omega) (by rw [hl1, hli]) (by rw [hfinp]; exact hfin)
          c hc2 hbne

theorem layerBody_resume (env : Env) (p : Params) (l : Nat) (s : St)
    (hli : s.ts.layer_iter = l) (hfin : s.ts.is_finished = false)
    (hble : s.ts.block_iter ≤ p.max_block) :
    ∀ c ∈ (layerBody env p l s).2.1, c.block_iter ≠ 0 →
      c.layer_iter = l ∧ c.is_finished = false ∧
      ∀ cu, (layerBody env p l { ts := c, cuda := cu }).1.ts = (layerBody env p l s).1.ts ∧
            (layerBody env p l { ts := c, cuda := cu }).2.2 = (layerBody env p l s).2.2 := by
  have ha : s.ts.block_iter + (p.max_block - s.ts.block_iter) = p.max_block := by omega
  rcases hr : runBlocks env p l
    (List.range' s.ts.block_iter (p.max_block - s.ts.block_iter)) s with ⟨s1, cps, ex⟩
  have hres := runBlocks_resume env p l (p.max_block - s.ts.block_iter)
    s.ts.block_iter s ha hli hfin
  rw [hr] at hres
  simp only at hres
  intro c hc hbne
  cases ex with
  | err e =>
    rw [layerBody_eq_err env p l s s1 cps e hr] at hc ⊢
    simp only at hc
    obtain ⟨hcl, hcf, hccu⟩ := hres c hc hbne
    refine ⟨hcl, hcf, ?_⟩
    intro cu
    obtain ⟨u1, u2⟩ := hccu cu
    rcases hr2 : runBlocks env p l
      (List.range' c.block_iter (p.max_block - c.block_iter)) { ts := c, cuda := cu }
      with ⟨r1, rcps, rex⟩
    rw [hr2] at u1 u2
    simp only at u1 u2
    subst u2
    rw [layerBody_eq_err env p l { ts := c, cuda := cu } r1 rcps e hr2]
    exact ⟨u1, rfl⟩
  | stop =>
    by_cases hcond : layerConvCond p l s1.ts = true
    · rw [layerBody_eq_brk env p l s s1 cps BEx.stop hr (by intro e h; cases h) hcond]
        at hc ⊢
      simp only at hc
      obtain ⟨hcl, hcf, hccu⟩ := hres c hc hbne
      refine ⟨hcl, hcf, ?_⟩
      intro cu
      obtain ⟨u1, u2⟩ := hccu cu
      rcases hr2 : runBlocks env p l
        (List.range' c.block_iter (p.max_block - c.block_iter)) { ts := c, cuda := cu }
        with ⟨r1, rcps, rex⟩
      rw [hr2] at u1 u2
      simp only at u1 u2
      subst u2
      rw [layerBody_eq_brk env p l { ts := c, cuda := cu } r1 rcps BEx.stop hr2
        (by intro e h; cases h) (by rw [u1]; exact hcond)]
      constructor
      · simp only
        rw [u1]
      · rfl
    · rw [layerBody_eq_cont env p l s s1 cps BEx.stop hr (by intro e h; cases h)
        (by simpa using hcond)] at hc ⊢
      simp only at hc
      obtain ⟨hcl, hcf, hccu⟩ := hres c hc hbne
      refine ⟨hcl, hcf, ?_⟩
      intro cu
      obtain ⟨u1, u2⟩ := hccu cu
      rcases hr2 : runBlocks env p l
        (List.range' c.block_iter (p.max_block - c.block_iter)) { ts := c, cuda := cu }
        with ⟨r1, rcps, rex⟩
      rw [hr2] at u1 u2
      simp only at u1 u2
      subst u2
      rw [layerBody_eq_cont env p l { ts := c, cuda := cu } r1 rcps BEx.stop hr2
        (by intro e h; cases h) (by rw [u1]; simpa using hcond)]
      constructor
      · simp only
        rw [u1]
      · rfl
  | next =>
    by_cases hcond : layerConvCond p l s1.ts = true
    · rw [layerBody_eq_brk env p l s s1 cps BEx.next hr (by intro e h; cases h) hcond]
        at hc ⊢
      simp only at hc
      obtain ⟨hcl, hcf, hccu⟩ := hres c hc hbne
      refine ⟨hcl, hcf, ?_⟩
      intro cu
      obtain ⟨u1, u2⟩ := hccu cu
      rcases hr2 : runBlocks env p l
        (List.range' c.block_iter (p.max_block - c.block_iter)) { ts := c, cuda := cu }
        with ⟨r1, rcps, rex⟩
      rw [hr2] at u1 u2
      simp only at u1 u2
      subst u2
      rw [layerBody_eq_brk env p l { ts := c, cuda := cu } r1 rcps BEx.next hr2
        (by intro e h; cases h) (by rw [u1]; exact hcond)]
      constructor
      · simp only
        rw [u1]
      · rfl
    · rw [layerBody_eq_cont env p l s s1 cps BEx.next hr (by intro e h; cases h)
        (by simpa using hcond)] at hc ⊢
      simp only at hc
      obtain ⟨hcl, hcf, hccu⟩ := hres c hc hbne
      refine ⟨hcl, hcf, ?_⟩
      intro cu
      obtain ⟨u1, u2⟩ := hccu cu
      rcases hr2 : runBlocks env p l
        (List.range' c.block_iter (p.max_block - c.block_iter)) { ts := c, cuda := cu }
        with ⟨r1, rcps, rex⟩
      rw [hr2] at u1 u2
      simp only at u1 u2
      subst u2
      rw [layerBody_eq_cont env p l { ts := c, cuda := cu } r1 rcps BEx.next hr2
        (by intro e h; cases h) (by rw [u1]; simpa using hcond)]
      constructor
      · simp only
        rw [u1]
      · rfl

theorem outerLoop_resume (env : Env) (p : Params) :
    ∀ (k : Nat) (s : St),
    s.ts.layer_iter + k = p.max_layer →
    s.ts.block_iter ≤ p.max_block →
    s.ts.is_finished = false →
    ∀ c ∈ (outerLoop env p (List.range' s.ts.layer_iter k) s).2.1,
      c.block_iter ≠ 0 →
      c.is_finished = false ∧
      ∀ cu, (outerLoop env p (List.range' c.layer_iter (p.max_layer - c.layer_iter))
              { ts := c, cuda := cu }).1.ts
             = (outerLoop env p (List.range' s.ts.layer_iter k) s).1.ts ∧
            (outerLoop env p (List.range' c.layer_iter (p.max_layer - c.layer_iter))
              { ts := c, cuda := cu }).2.2
             = (outerLoop env p (List.range' s.ts.layer_iter k) s).2.2 := by
  intro k
  induction k with
  | zero =>
    intro s _ _ _ c hc
    rw [List.range'_zero, outerLoop_nil] at hc
    simp at hc
  | succ k ih =>
    intro s hml hmb hfin c hc hbne
    rw [List.range'_succ] at hc ⊢
    rcases hb : layerBody env p s.ts.layer_iter s with ⟨s1, cps1, ex⟩
    have hlres := layerBody_resume env p s.ts.layer_iter s rfl hfin hmb
    rw [hb] at hlres
    simp only at hlres
    cases ex with
    | err e =>
      rw [outerLoop_cons_err env p s.ts.layer_iter _ s s1 cps1 e hb] at hc ⊢
      simp only at hc
      obtain ⟨hcl, hcf, hccu⟩ := hlres c hc hbne
      refine ⟨hcf, ?_⟩
      intro cu
      have hlk : p.max_layer - c.layer_iter = k + 1 := by omega
      rw [hlk, hcl, List.range'_succ]
      obtain ⟨u1, u2⟩ := hccu cu
      rcases hb2 : layerBody env p s.ts.layer_iter { ts := c, cuda := cu }
        with ⟨r1, rcps, rex⟩
      rw [hb2] at u1 u2
      simp only at u1 u2
      subst u2
      rw [outerLoop_cons_err env p s.ts.layer_iter _ { ts := c, cuda := cu } r1 rcps e hb2]
      exact ⟨u1, rfl⟩
    | brk =>
      rw [outerLoop_cons_brk env p s.ts.layer_iter _ s s1 cps1 hb] at hc ⊢
      simp only at hc
      obtain ⟨hcl, hcf, hccu⟩ := hlres c hc hbne
      refine ⟨hcf, ?_⟩
      intro cu
      have hlk : p.max_layer - c.layer_iter = k + 1 := by omega
      rw [hlk, hcl, List.range'_succ]
      obtain ⟨u1, u2⟩ := hccu cu
      rcases hb2 : layerBody env p s.ts.layer_iter { ts := c, cuda := cu }
        with ⟨r1, rcps, rex⟩
      rw [hb2] at u1 u2
      simp only at u1 u2
      subst u2
      rw [outerLoop_cons_brk env p s.ts.layer_iter _ { ts := c, cuda := cu } r1 rcps hb2]
      exact ⟨u1, rfl⟩
    | cont =>
      rw [outerLoop_cons_cont env p s.ts.layer_iter _ s s1 cps1 hb] at hc ⊢
      simp only at hc
      have hcursor := layerBody_cont_cursor env p s.ts.layer_iter s rfl hmb (by rw [hb])
      rw [hb] at hcursor
      simp only at hcursor
      obtain ⟨hl1, hb1⟩ := hcursor
      have hfin1 : s1.ts.is_finished = false := by
        have := layerBody_is_finished env p s.ts.layer_iter s
        rw [hb] at this
        simp only at this
        rw [this]
        exact hfin
      rcases List.mem_append.mp hc with hc1 | hc2
      · obtain ⟨hcl, hcf, hccu⟩ := hlres c hc1 hbne
        refine ⟨hcf, ?_⟩
        intro cu
        have hlk : p.max_layer - c.layer_iter = k + 1 := by omega
        rw [hlk, hcl, List.range'_succ]
        obtain ⟨u1, u2⟩ := hccu cu
        rcases hb2 : layerBody env p s.ts.layer_iter { ts := c, cuda := cu }
          with ⟨r1, rcps, rex⟩
        rw [hb2] at u1 u2
        simp only at u1 u2
        subst u2
        rw [outerLoop_cons_cont env p s.ts.layer_iter _ { ts := c, cuda := cu } r1 rcps hb2]
        have er1 : ({ ts := r1.ts, cuda := r1.cuda } : St) = r1 := rfl
        have es1 : ({ ts := s1.ts, cuda := s1.cuda } : St) = s1 := rfl
        obtain ⟨i1, _, i3⟩ := outerLoop_cuda_indep env p
          (List.range' (s.ts.layer_iter + 1) k) s1.ts r1.cuda s1.cuda
        rw [es1] at i1 i3
        rw [← u1] at i1 i3
        rw [er1] at i1 i3
        exact ⟨i1, i3⟩
      · have hres2 := ih s1 (by omega) hb1 hfin1 c
        rw [hl1] at hres2
        obtain ⟨hcf, hccu⟩ := hres2 hc2 hbne
        exact ⟨hcf, fun cu => hccu cu⟩

theorem growthLoop_finished (env : Env) (p : Params) (ts0 : TrainState) (cuda0 : Nat)
    (h : ts0.is_finished = true) :
    growthLoop env p ts0 cuda0 = { result := Except.ok ts0, cuda := cuda0, cps := [] } := by
  simp [growthLoop, h]

theorem growthLoop_run_err (env : Env) (p : Params) (ts0 : TrainState) (cuda0 : Nat)
    (s : St) (cps : List TrainState) (e : String)
    (h : ts0.is_finished = false)
    (ho : outerLoop env p (List.range' ts0.layer_iter (p.max_layer - ts0.layer_iter))
      { ts := ts0, cuda := cuda0 } = (s, cps, OEx.err e)) :
    growthLoop env p ts0 cuda0
      = { result := Except.error e, cuda := s.cuda, cps := cps } := by
  simp [growthLoop, h, ho]

theorem growthLoop_run_ok (env : Env) (p : Params) (ts0 : TrainState) (cuda0 : Nat)
    (s : St) (cps : List TrainState) (ex : OEx)
    (h : ts0.is_finished = false)
    (ho : outerLoop env p (List.range' ts0.layer_iter (p.max_layer - ts0.layer_iter))
      { ts := ts0, cuda := cuda0 } = (s, cps, ex))
    (hne : ∀ e, ex ≠ OEx.err e) :
    growthLoop env p ts0 cuda0
      = { result := Except.ok { s.ts with is_finished := true }, cuda := s.cuda,
          cps := cps ++ [{ s.ts with is_finished := true }] } := by
  cases ex with
  | err e => exact absurd rfl (hne e)
  | brk => simp [growthLoop, h, ho]
  | done => simp [growthLoop, h, ho]

/-! ### Claim C2: resumability -/

/-- C2 (amended): with deterministic collaborators, growth restarted from a
persisted checkpoint whose block cursor is nonzero (a mid-layer
block-commit snapshot, re-entered at the persisted layer/block cursors)
produces the identical final result — Topology, Weights and history — as
the uninterrupted run.  As stated for arbitrary checkpoints the claim is
false: checkpoints with block cursor 0 can re-enter at the start of an
already-grown layer and diverge (see the counterexample). -/
theorem c2_resume_from_midlayer_checkpoint (env : Env) (p : Params)
    (c : TrainState) (cu cu0 : Nat)
    (hmem : c ∈ (growthLoop env p (initState p) cu0).cps)
    (hbi : c.block_iter ≠ 0) :
    (growthLoop env p c cu).result = (growthLoop env p (initState p) cu0).result := by
  rcases ho : outerLoop env p
      (List.range' (initState p).layer_iter (p.max_layer - (initState p).layer_iter))
      { ts := initState p, cuda := cu0 } with ⟨sF, cpsO, exO⟩
  have hres := outerLoop_resume env p (p.max_layer - (initState p).layer_iter)
    { ts := initState p, cuda := cu0 } (by simp [initState]) (by simp [initState]) rfl
  rw [ho] at hres
  simp only at hres
  cases exO with
  | err e =>
    rw [growthLoop_run_err env p (initState p) cu0 sF cpsO e rfl ho] at hmem ⊢
    simp only at hmem
    obtain ⟨hcf, hccu⟩ := hres c hmem hbi
    rcases ho2 : outerLoop env p (List.range' c.layer_iter (p.max_layer - c.layer_iter))
      { ts := c, cuda := cu } with ⟨r, rcps, rex⟩
    obtain ⟨u1, u2⟩ := hccu cu
    rw [ho2] at u1 u2
    simp only at u1 u2
    subst u2
    rw [growthLoop_run_err env p c cu r rcps e hcf ho2]
  | brk =>
    rw [growthLoop_run_ok env p (initState p) cu0 sF cpsO OEx.brk rfl ho
      (by intro e h; cases h)] at hmem ⊢
    simp only at hmem
    rcases List.mem_append.mp hmem with hc1 | hc2
    · obtain ⟨hcf, hccu⟩ := hres c hc1 hbi
      rcases ho2 : outerLoop env p (List.range' c.layer_iter (p.max_layer - c.layer_iter))
        { ts := c, cuda := cu } with ⟨r, rcps, rex⟩
      obtain ⟨u1, u2⟩ := hccu cu
      rw [ho2] at u1 u2
      simp only at u1 u2
      subst u2
      rw [growthLoop_run_ok env p c cu r rcps OEx.brk hcf ho2 (by intro e h; cases h)]
      simp only
      rw [u1]
    · have hceq : c = { sF.ts with is_finished := true } := by simpa using hc2
      subst hceq
      rw [growthLoop_finished env p _ cu rfl]
  | done =>
    rw [growthLoop_run_ok env p (initState p) cu0 sF cpsO OEx.done rfl ho
      (by intro e h; cases h)] at hmem ⊢
    simp only at hmem
    rcases List.mem_append.mp hmem with hc1 | hc2
    · obtain ⟨hcf, hccu⟩ := hres c hc1 hbi
      rcases ho2 : outerLoop env p (List.range' c.layer_iter (p.max_layer - c.layer_iter))
        { ts := c, cuda := cu } with ⟨r, rcps, rex⟩
      obtain ⟨u1, u2⟩ := hccu cu
      rw [ho2] at u1 u2
      simp only at u1 u2
      subst u2
      rw [growthLoop_run_ok env p c cu r rcps OEx.done hcf ho2 (by intro e h; cases h)]
      simp only
      rw [u1]
    · have hceq : c = { sF.ts with is_finished := true } := by simpa using hc2
      subst hceq
      rw [growthLoop_finished env p _ cu rfl]

/-- C2 counterexample: with deterministic, strictly-improving collaborators
and `max_layer = 1`, `max_block = 2`, the checkpoint written after the
final block of layer 0 (block cursor wrapped to 0, layer cursor still 0)
is a persisted checkpoint, yet restarting growth from it re-enters layer
0, appends duplicate topology/history/measure entries, and produces a
different final result than the uninterrupted run. -/
theorem c2_counterexample :
    (growthLoop envImprove pBase (initState pBase) 37).cps.getD 1 (initState pBase)
      ∈ (growthLoop envImprove pBase (initState pBase) 37).cps ∧
    (growthLoop envImprove pBase
        ((growthLoop envImprove pBase (initState pBase) 37).cps.getD 1 (initState pBase))
        37).result
      ≠ (growthLoop envImprove pBase (initState pBase) 37).result := by
  constructor
  · decide
  · decide

/-- C2 witness: the mid-layer checkpoint (block cursor 1) of the same run
resumes to the identical final result. -/
theorem c2_witness :
    ((growthLoop envImprove pBase (initState pBase) 37).cps.getD 0 (initState pBase))
      ∈ (growthLoop envImprove pBase (initState pBase) 37).cps ∧
    (growthLoop envImprove pBase
        ((growthLoop envImprove pBase (initState pBase) 37).cps.getD 0 (initState pBase))
        99).result
      = (growthLoop envImprove pBase (initState pBase) 37).result :=
  ⟨by decide,
    c2_resume_from_midlayer_checkpoint envImprove pBase _ 99 37 (by decide) (by decide)⟩

/-! ### Length accounting for topology, history and measure -/

theorem blockStep_len (env : Env) (p : Params) (l j : Nat) (s : St) (hj : j ≠ 0) :
    (blockStep env p l j s).1.ts.topology.length = s.ts.topology.length ∧
    (blockStep env p l j s).1.ts.history.length = s.ts.history.length ∧
    (blockStep env p l j s).1.ts.measure.length = s.ts.measure.length := by
  rcases blockStep_shape env p l j s with ⟨e, _, heq⟩ | ⟨m, h, w2, _, ⟨_, heq⟩ | heq⟩ <;>
    rw [heq] <;>
    simp [blockRollback, blockCommit, blockAttempt, addBlock, updateAt_length,
      prepState_pos p l j s.ts hj]

theorem blockStep0_len (env : Env) (p : Params) (l : Nat) (s : St) :
    (blockStep env p l 0 s).1.ts.topology.length
      = (if 0 < l then s.ts.topology.length - 1 else s.ts.topology.length) + 2 ∧
    (blockStep env p l 0 s).1.ts.history.length = s.ts.history.length + 1 ∧
    (blockStep env p l 0 s).1.ts.measure.length = s.ts.measure.length + 1 := by
  have hA : (blockAttempt env p l 0 s.ts).topology.length
        = (if 0 < l then s.ts.topology.length - 1 else s.ts.topology.length) + 2 ∧
      (blockAttempt env p l 0 s.ts).history.length = s.ts.history.length + 1 ∧
      (blockAttempt env p l 0 s.ts).measure.length = s.ts.measure.length + 1 := by
    unfold blockAttempt prepState
    simp [addBlock, updateAt_length]
    split <;> simp
  rcases blockStep_shape env p l 0 s with ⟨e, _, heq⟩ | ⟨m, h, w2, _, ⟨hj, heq⟩ | heq⟩
  · rw [heq]
    exact hA
  · exact absurd hj (by omega)
  · rw [heq]
    simpa [blockCommit, updateAt_length] using hA

theorem runBlocks_len_tail (env : Env) (p : Params) (l : Nat) (js : List Nat)
    (hjs : ∀ j ∈ js, j ≠ 0) :
    ∀ s : St,
    (runBlocks env p l js s).1.ts.topology.length = s.ts.topology.length ∧
    (runBlocks env p l js s).1.ts.history.length = s.ts.history.length ∧
    (runBlocks env p l js s).1.ts.measure.length = s.ts.measure.length := by
  induction js with
  | nil => intro s; exact ⟨rfl, rfl, rfl⟩
  | cons j rest ih =>
    intro s
    have hj : j ≠ 0 := hjs j (by simp)
    rcases hb : blockStep env p l j s with ⟨s1, cps1, ex⟩
    obtain ⟨l1, l2, l3⟩ := blockStep_len env p l j s hj
    rw [hb] at l1 l2 l3
    simp only at l1 l2 l3
    cases ex with
    | err e => rw [runBlocks_cons_err env p l j rest s s1 cps1 e hb]; exact ⟨l1, l2, l3⟩
    | stop => rw [runBlocks_cons_stop env p l j rest s s1 cps1 hb]; exact ⟨l1, l2, l3⟩
    | next =>
      rw [runBlocks_cons_next env p l j rest s s1 cps1 hb]
      obtain ⟨i1, i2, i3⟩ := ih (fun x hx => hjs x (by simp [hx])) s1
      exact ⟨by rw [i1, l1], by rw [i2, l2], by rw [i3, l3]⟩

theorem runBlocks_done_block_iter (env : Env) (p : Params) (l : Nat) :
    ∀ (n a : Nat) (s : St), a + n = p.max_block → 1 ≤ n →
    (runBlocks env p l (List.range' a n) s).2.2 = BEx.next →
    (runBlocks env p l (List.range' a n) s).1.ts.block_iter = 0 := by
  intro n
  induction n with
  | zero => intro a s _ h1; exact absurd h1 (by omega)
  | succ n ih =>
    intro a s ha _ hex
    rw [List.range'_succ] at hex ⊢
    rcases hb : blockStep env p l a s with ⟨s1, cps1, ex⟩
    obtain ⟨_, hnextf, _, _⟩ := blockStep_facts env p l a s
    rw [hb] at hnextf
    simp only at hnextf
    cases ex with
    | err e =>
      rw [runBlocks_cons_err env p l a _ s s1 cps1 e hb] at hex
      cases hex
    | stop =>
      rw [runBlocks_cons_stop env p l a _ s s1 cps1 hb] at hex
      cases hex
    | next =>
      rw [runBlocks_cons_next env p l a _ s s1 cps1 hb] at hex ⊢
      obtain ⟨_, hbi, _⟩ := hnextf rfl
      simp only at hex
      cases n with
      | zero =>
        rw [List.range'_zero, runBlocks_nil]
        rw [hbi]
        simp [show a = p.max_block - 1 by omega]
      | succ n2 =>
        exact ih (a + 1) s1 (by omega) (by omega) hex

theorem layerBody_counts (env : Env) (p : Params) (l : Nat) (s : St)
    (hMB : 1 ≤ p.max_block) (hbi : s.ts.block_iter = 0)
    (hinv : (0 < l ∧ s.ts.topology.length = l + 1 ∧ s.ts.history.length = l ∧
        s.ts.measure.length = l) ∨
      (l = 0 ∧ s.ts.topology.length = 0 ∧ s.ts.history.length = 0 ∧
        s.ts.measure.length = 0)) :
    ((layerBody env p l s).2.2 = LEx.cont →
      (layerBody env p l s).1.ts.topology.length = l + 2 ∧
      (layerBody env p l s).1.ts.history.length = l + 1 ∧
      (layerBody env p l s).1.ts.measure.length = l + 1 ∧
      (layerBody env p l s).1.ts.block_iter = 0) ∧
    ((layerBody env p l s).2.2 = LEx.brk →
      (layerBody env p l s).1.ts.topology.length = l + 1 ∧
      (layerBody env p l s).1.ts.history.length = l ∧
      (layerBody env p l s).1.ts.measure.length = l + 1) := by
  have hsplit : List.range' s.ts.block_iter (p.max_block - s.ts.block_iter)
      = 0 :: List.range' 1 (p.max_block - 1) := by
    rw [hbi]
    rw [show p.max_block - 0 = (p.max_block - 1) + 1 by omega]
    rw [List.range'_succ]
  rcases hr : runBlocks env p l
    (List.range' s.ts.block_iter (p.max_block - s.ts.block_iter)) s with ⟨s1, cps, ex⟩
  rw [hsplit] at hr
  rcases hb : blockStep env p l 0 s with ⟨sb, cpsb, exb⟩
  obtain ⟨z1, z2, z3⟩ := blockStep0_len env p l s
  rw [hb] at z1 z2 z3
  simp only at z1 z2 z3
  have hTz : sb.ts.topology.length = l + 2 := by
    rcases hinv with ⟨hl, h1, h2, h3⟩ | ⟨hl, h1, h2, h3⟩
    · rw [z1, h1]
      simp [hl]
    · subst hl
      rw [z1, h1]
      simp
  have hHz : sb.ts.history.length = l + 1 := by
    rcases hinv with ⟨_, _, h2, _⟩ | ⟨hl, _, h2, _⟩
    · rw [z2, h2]
    · subst hl; rw [z2, h2]
  have hMz : sb.ts.measure.length = l + 1 := by
    rcases hinv with ⟨_, _, _, h3⟩ | ⟨hl, _, _, h3⟩
    · rw [z3, h3]
    · subst hl; rw [z3, h3]
  have hlen1 : s1.ts.topology.length = l + 2 ∧ s1.ts.history.length = l + 1 ∧
      s1.ts.measure.length = l + 1 := by
    cases exb with
    | err e =>
      rw [runBlocks_cons_err env p l 0 _ s sb cpsb e hb] at hr
      obtain ⟨rfl, rfl, rfl⟩ : sb = s1 ∧ cpsb = cps ∧ BEx.err e = ex := by
        injection hr with a1 a2
        injection a2 with a2 a3
        exact ⟨a1, a2, a3⟩
      exact ⟨hTz, hHz, hMz⟩
    | stop =>
      rw [runBlocks_cons_stop env p l 0 _ s sb cpsb hb] at hr
      obtain ⟨rfl, rfl, rfl⟩ : sb = s1 ∧ cpsb = cps ∧ BEx.stop = ex := by
        injection hr with a1 a2
        injection a2 with a2 a3
        exact ⟨a1, a2, a3⟩
      exact ⟨hTz, hHz, hMz⟩
    | next =>
      rw [runBlocks_cons_next env p l 0 _ s sb cpsb hb] at hr
      obtain ⟨t1, t2, t3⟩ := runBlocks_len_tail env p l (List.range' 1 (p.max_block - 1))
        (by intro x hx; have := List.mem_range'_1.mp hx; omega) sb
      have e1 : (runBlocks env p l (List.range' 1 (p.max_block - 1)) sb).1 = s1 := by
        injection hr with a1 _
      rw [e1] at t1 t2 t3
      exact ⟨by rw [t1, hTz], by rw [t2, hHz], by rw [t3, hMz]⟩
  obtain ⟨hT1, hH1, hM1⟩ := hlen1
  rw [← hsplit] at hr
  cases ex with
  | err e =>
    rw [layerBody_eq_err env p l s s1 cps e hr]
    exact ⟨(fun hx => by cases hx), (fun hx => by cases hx)⟩
  | stop =>
    by_cases hc : layerConvCond p l s1.ts = true
    · rw [layerBody_eq_brk env p l s s1 cps BEx.stop hr (by intro e h; cases h) hc]
      refine ⟨(fun hx => by cases hx), fun _ => ?_⟩
      refine ⟨?_, ?_, ?_⟩ <;> simp only [layerRollback] <;>
        simp [List.length_eraseIdx, hT1, hH1, hM1]
    · rw [layerBody_eq_cont env p l s s1 cps BEx.stop hr (by intro e h; cases h)
        (by simpa using hc)]
      refine ⟨fun _ => ?_, fun hx => by cases hx⟩
      have hstop := (runBlocks_cursor env p l
        (List.range' s.ts.block_iter (p.max_block - s.ts.block_iter)) s).2
      rw [hr] at hstop
      simp only at hstop
      obtain ⟨_, hb0⟩ := hstop trivial
      exact ⟨by simpa using hT1, by simpa using hH1, by simpa using hM1, by simpa using hb0⟩
  | next =>
    by_cases hc : layerConvCond p l s1.ts = true
    · rw [layerBody_eq_brk env p l s s1 cps BEx.next hr (by intro e h; cases h) hc]
      refine ⟨(fun hx => by cases hx), fun _ => ?_⟩
      refine ⟨?_, ?_, ?_⟩ <;> simp only [layerRollback] <;>
        simp [List.length_eraseIdx, hT1, hH1, hM1]
    · rw [layerBody_eq_cont env p l s s1 cps BEx.next hr (by intro e h; cases h)
        (by simpa using hc)]
      refine ⟨fun _ => ?_, fun hx => by cases hx⟩
      have hdone := runBlocks_done_block_iter env p l (p.max_block - s.ts.block_iter)
        s.ts.block_iter s (by omega) (by omega)
      rw [hr] at hdone
      simp only at hdone
      exact ⟨by simpa using hT1, by simpa using hH1, by simpa using hM1,
        by simpa using hdone trivial⟩

theorem outerLoop_counts (env : Env) (p : Params) (hMB : 1 ≤ p.max_block) :
    ∀ (k : Nat) (s : St),
    s.ts.block_iter = 0 →
    ((0 < s.ts.layer_iter ∧ s.ts.topology.length = s.ts.layer_iter + 1 ∧
        s.ts.history.length = s.ts.layer_iter ∧ s.ts.measure.length = s.ts.layer_iter) ∨
      (s.ts.layer_iter = 0 ∧ s.ts.topology.length = 0 ∧ s.ts.history.length = 0 ∧
        s.ts.measure.length = 0)) →
    ((outerLoop env p (List.range' s.ts.layer_iter k) s).2.2 = OEx.done →
      (outerLoop env p (List.range' s.ts.layer_iter k) s).1.ts.layer_iter
          = s.ts.layer_iter + k ∧
      ((0 < (outerLoop env p (List.range' s.ts.layer_iter k) s).1.ts.layer_iter ∧
        (outerLoop env p (List.range' s.ts.layer_iter k) s).1.ts.topology.length
          = (outerLoop env p (List.range' s.ts.layer_iter k) s).1.ts.layer_iter + 1 ∧
        (outerLoop env p (List.range' s.ts.layer_iter k) s).1.ts.history.length
          = (outerLoop env p (List.range' s.ts.layer_iter k) s).1.ts.layer_iter ∧
        (outerLoop env p (List.range' s.ts.layer_iter k) s).1.ts.measure.length
          = (outerLoop env p (List.range' s.ts.layer_iter k) s).1.ts.layer_iter) ∨
       ((outerLoop env p (List.range' s.ts.layer_iter k) s).1.ts.layer_iter = 0 ∧
        (outerLoop env p (List.range' s.ts.layer_iter k) s).1.ts.topology.length = 0 ∧
        (outerLoop env p (List.range' s.ts.layer_iter k) s).1.ts.history.length = 0 ∧
        (outerLoop env p (List.range' s.ts.layer_iter k) s).1.ts.measure.length = 0))) ∧
    ((outerLoop env p (List.range' s.ts.layer_iter k) s).2.2 = OEx.brk →
      (outerLoop env p (List.range' s.ts.layer_iter k) s).1.ts.topology.length
        = (outerLoop env p (List.range' s.ts.layer_iter k) s).1.ts.history.length + 1 ∧
      (outerLoop env p (List.range' s.ts.layer_iter k) s).1.ts.measure.length
        = (outerLoop env p (List.range' s.ts.layer_iter k) s).1.ts.history.length + 1) := by
  intro k
  induction k with
  | zero =>
    intro s hbi hinv
    rw [List.range'_zero, outerLoop_nil]
    exact ⟨fun _ => ⟨rfl, hinv⟩, (fun hx => by cases hx)⟩
  | succ k ih =>
    intro s hbi hinv
    rw [List.range'_succ]
    rcases hb : layerBody env p s.ts.layer_iter s with ⟨s1, cps1, ex⟩
    have hcounts := layerBody_counts env p s.ts.layer_iter s hMB hbi hinv
    rw [hb] at hcounts
    obtain ⟨hcont, hbrk⟩ := hcounts
    cases ex with
    | err e =>
      rw [outerLoop_cons_err env p s.ts.layer_iter _ s s1 cps1 e hb]
      exact ⟨(fun hx => by cases hx), (fun hx => by cases hx)⟩
    | brk =>
      rw [outerLoop_cons_brk env p s.ts.layer_iter _ s s1 cps1 hb]
      obtain ⟨hT, hH, hM⟩ := hbrk rfl
      simp only at hT hH hM
      refine ⟨(fun hx => by cases hx), fun _ => ?_⟩
      constructor
      · show s1.ts.topology.length = s1.ts.history.length + 1
        omega
      · show s1.ts.measure.length = s1.ts.history.length + 1
        omega
    | cont =>
      rw [outerLoop_cons_cont env p s.ts.layer_iter _ s s1 cps1 hb]
      obtain ⟨hT, hH, hM, hB⟩ := hcont rfl
      simp only at hT hH hM hB
      have hcc := layerBody_cont_cursor env p s.ts.layer_iter s rfl (by omega) (by rw [hb])
      rw [hb] at hcc
      simp only at hcc
      obtain ⟨hli, _⟩ := hcc
      have hrec := ih s1 hB (Or.inl (by rw [hli]; exact ⟨by omega, by omega, by omega, by omega⟩))
      rw [hli] at hrec
      obtain ⟨hdone2, hbrk2⟩ := hrec
      constructor
      · intro hx
        simp only at hx
        obtain ⟨d1, d2⟩ := hdone2 hx
        refine ⟨?_, d2⟩
        show (outerLoop env p (List.range' (s.ts.layer_iter + 1) k) s1).1.ts.layer_iter
          = s.ts.layer_iter + (k + 1)
        omega
      · intro hx
        simp only at hx
        exact hbrk2 hx

/-- C1 (amended): for every deterministic environment and every
configuration with at least one layer and one block, a successful fresh
growth run terminates with `len(topology)` equal to the number of
accepted layers (the length of the per-layer training history) plus one —
the single trailing output descriptor — not `2 ×` the layer count; in
particular, after growing 2 layers with `max_block = 1` the Topology has
exactly 3 elements, not 4. -/
theorem c1_topology_length (env : Env) (p : Params) (cu : Nat)
    (hML : 1 ≤ p.max_layer) (hMB : 1 ≤ p.max_block) (ts : TrainState)
    (hok : (growthLoop env p (initState p) cu).result = Except.ok ts) :
    ts.topology.length = ts.history.length + 1 := by
  rcases ho : outerLoop env p
      (List.range' (initState p).layer_iter (p.max_layer - (initState p).layer_iter))
      { ts := initState p, cuda := cu } with ⟨sF, cpsO, exO⟩
  have hco := outerLoop_counts env p hMB (p.max_layer - (initState p).layer_iter)
    { ts := initState p, cuda := cu } rfl (Or.inr ⟨rfl, rfl, rfl, rfl⟩)
  rw [ho] at hco
  obtain ⟨hdone, hbrk⟩ := hco
  cases exO with
  | err e =>
    rw [growthLoop_run_err env p (initState p) cu sF cpsO e rfl ho] at hok
    cases hok
  | brk =>
    rw [growthLoop_run_ok env p (initState p) cu sF cpsO OEx.brk rfl ho
      (by intro e h; cases h)] at hok
    simp only at hok
    injection hok with heq
    obtain ⟨hT, _⟩ := hbrk rfl
    simp only at hT
    rw [← heq]
    simpa using hT
  | done =>
    rw [growthLoop_run_ok env p (initState p) cu sF cpsO OEx.done rfl ho
      (by intro e h; cases h)] at hok
    simp only at hok
    injection hok with heq
    obtain ⟨hli, hcinv⟩ := hdone rfl
    simp only at hli hcinv
    rw [← heq]
    rcases hcinv with ⟨_, h1, h2, _⟩ | ⟨h0, _, _, _⟩
    · simp only [TrainState.topology, TrainState.history]
      show sF.ts.topology.length = sF.ts.history.length + 1
      omega
    · rw [h0] at hli
      have : (initState p).layer_iter = 0 := rfl
      omega

/-- C1 counterexample: growing 2 layers with `max_block = 1` under
deterministic, strictly-improving collaborators ends with a Topology of
exactly 3 elements (2 block lists and 1 output descriptor), not the 4
even elements the claim requires. -/
theorem c1_counterexample :
    ((growthLoop envImprove pTwoLayers (initState pTwoLayers) 0).result.map
      (fun ts => (ts.topology.length, ts.history.length))) = Except.ok (3, 2) ∧
    (3 : Nat) ≠ 2 * 2 := by
  constructor
  · decide
  · decide

/-- C1 witness: the amended length relation evaluated on the concrete
2-layer run. -/
theorem c1_witness :
    ((growthLoop envImprove pTwoLayers (initState pTwoLayers) 0).result.toOption.getD
      (initState pTwoLayers)).topology.length
    = ((growthLoop envImprove pTwoLayers (initState pTwoLayers) 0).result.toOption.getD
      (initState pTwoLayers)).history.length + 1 :=
  c1_topology_length envImprove pTwoLayers 0 (by decide) (by decide) _ (by decide)

/-! ### Checkpoint cursor chain -/

theorem runBlocks_chain (env : Env) (p : Params) (l : Nat) :
    ∀ (n a : Nat) (s : St) (x : TrainState),
    a + n = p.max_block →
    s.ts.block_iter = a →
    x.block_iter = a →
    (x.layer_iter = s.ts.layer_iter ∨ (x.layer_iter + 1 = s.ts.layer_iter ∧ a = 0)) →
    List.Chain cursorStep x (runBlocks env p l (List.range' a n) s).2.1 ∧
    (∀ c ∈ (runBlocks env p l (List.range' a n) s).2.1,
      c.block_iter + 1 ≤ p.max_block ∧ c.layer_iter ≤ s.ts.layer_iter + 1) ∧
    (1 ≤ n → (∀ e, (runBlocks env p l (List.range' a n) s).2.2 ≠ BEx.err e) →
      (runBlocks env p l (List.range' a n) s).2.1.getLastD x
        = (runBlocks env p l (List.range' a n) s).1.ts) := by
  intro n
  induction n with
  | zero =>
    intro a s x _ _ _ _
    rw [List.range'_zero, runBlocks_nil]
    exact ⟨List.Chain.nil, by simp, fun h1 => absurd h1 (by omega)⟩
  | succ n ih =>
    intro a s x ha hsa hxa hxl
    rw [List.range'_succ]
    rcases hb : blockStep env p l a s with ⟨s1, cps1, ex⟩
    obtain ⟨_, hnextf, hstopf, herrf⟩ := blockStep_facts env p l a s
    rw [hb] at hnextf hstopf herrf
    simp only at hnextf hstopf herrf
    cases ex with
    | err e =>
      rw [runBlocks_cons_err env p l a _ s s1 cps1 e hb]
      obtain ⟨_, hcps⟩ := herrf e rfl
      rw [hcps]
      exact ⟨List.Chain.nil, by simp, fun _ h => absurd rfl (h e)⟩
    | stop =>
      rw [runBlocks_cons_stop env p l a _ s s1 cps1 hb]
      obtain ⟨hj0, hl1, hb1, hcps⟩ := hstopf rfl
      rw [hcps]
      refine ⟨List.Chain.cons ⟨Or.inr hb1, ?_⟩ List.Chain.nil, ?_, ?_⟩
      · rcases hxl with hx | ⟨hx, hx0⟩
        · right
          omega
        · left
          omega
      · intro c hc
        simp at hc
        subst hc
        constructor
        · omega
        · omega
      · intro _ _
        simp [List.getLastD]
    | next =>
      rw [runBlocks_cons_next env p l a _ s s1 cps1 hb]
      obtain ⟨hl1, hb1, hcps⟩ := hnextf rfl
      simp only [hcps, List.singleton_append]
      by_cases hlast : a = p.max_block - 1
      · have hn0 : n = 0 := by omega
        subst hn0
        rw [List.range'_zero, runBlocks_nil]
        have hb1z : s1.ts.block_iter = 0 := by rw [hb1]; simp [hlast]
        refine ⟨List.Chain.cons ⟨Or.inr hb1z, ?_⟩ List.Chain.nil, ?_, ?_⟩
        · rcases hxl with hx | ⟨hx, hx0⟩
          · left
            omega
          · right
            omega
        · intro c hc
          simp at hc
          subst hc
          exact ⟨by omega, by omega⟩
        · intro _ _
          simp [List.getLastD]
      · have hb1v : s1.ts.block_iter = a + 1 := by rw [hb1]; simp [hlast]
        obtain ⟨ch, bd, lst⟩ := ih (a + 1) s1 s1.ts (by omega) hb1v hb1v (Or.inl rfl)
        refine ⟨?_, ?_, ?_⟩
        · refine List.Chain.cons ⟨?_, ?_⟩ ch
          · left
            omega
          · rcases hxl with hx | ⟨hx, hx0⟩
            · left
              omega
            · right
              omega
        · intro c hc
          rcases List.mem_cons.mp hc with hc1 | hc2
          · subst hc1
            exact ⟨by omega, by omega⟩
          · obtain ⟨b1, b2⟩ := bd c hc2
            exact ⟨b1, by omega⟩
        · intro _ hne
          rw [List.getLastD_cons]
          cases n with
          | zero =>
            rw [List.range'_zero, runBlocks_nil]
            simp [List.getLastD]
          | succ n2 =>
            exact lst (by omega) hne

theorem getLastD_append (l1 l2 : List α) (x : α) :
    (l1 ++ l2).getLastD x = l2.getLastD (l1.getLastD x) := by
  induction l1 generalizing x with
  | nil => rfl
  | cons a l1 ih =>
    rw [List.cons_append, List.getLastD_cons, List.getLastD_cons, ih]

theorem chain_append_of {R : α → α → Prop} {x : α} {l1 l2 : List α}
    (h1 : List.Chain R x l1) (h2 : List.Chain R (l1.getLastD x) l2) :
    List.Chain R x (l1 ++ l2) := by
  induction l1 generalizing x with
  | nil => exact h2
  | cons a l1 ih =>
    cases h1 with
    | cons hr hc =>
      rw [List.getLastD_cons] at h2
      exact List.Chain.cons hr (ih hc h2)

theorem layerBody_chain (env : Env) (p : Params) (l : Nat) (s : St) (x : TrainState)
    (hMB : 1 ≤ p.max_block)
    (hbi : s.ts.block_iter = 0)
    (hxb : x.block_iter = 0)
    (hxl : x.layer_iter = s.ts.layer_iter ∨ x.layer_iter + 1 = s.ts.layer_iter) :
    List.Chain cursorStep x (layerBody env p l s).2.1 ∧
    (∀ c ∈ (layerBody env p l s).2.1,
      c.block_iter + 1 ≤ p.max_block ∧ c.layer_iter ≤ s.ts.layer_iter + 1) ∧
    ((∀ e, (layerBody env p l s).2.2 ≠ LEx.err e) →
      ((layerBody env p l s).2.1.getLastD x).block_iter = 0 ∧
      ((layerBody env p l s).1.ts.layer_iter
          = ((layerBody env p l s).2.1.getLastD x).layer_iter ∨
        (layerBody env p l s).1.ts.layer_iter
          = ((layerBody env p l s).2.1.getLastD x).layer_iter + 1) ∧
      (layerBody env p l s).1.ts.block_iter = 0 ∧
      (layerBody env p l s).1.ts.layer_iter ≤ s.ts.layer_iter + 1) := by
  obtain ⟨ch, bd, lst⟩ := runBlocks_chain env p l (p.max_block - s.ts.block_iter)
    s.ts.block_iter s x (by omega) rfl (by rw [hxb, hbi])
    (by
      rcases hxl with h1 | h1
      · exact Or.inl h1
      · exact Or.inr ⟨h1, hbi⟩)
  rcases hr : runBlocks env p l
    (List.range' s.ts.block_iter (p.max_block - s.ts.block_iter)) s with ⟨s1, cps, ex⟩
  rw [hr] at ch bd lst
  simp only at ch bd lst
  obtain ⟨hcnext, hcstop⟩ := runBlocks_cursor env p l
    (List.range' s.ts.block_iter (p.max_block - s.ts.block_iter)) s
  rw [hr] at hcnext hcstop
  simp only at hcnext hcstop
  have hdone := runBlocks_done_block_iter env p l (p.max_block - s.ts.block_iter)
    s.ts.block_iter s (by omega) (by omega)
  rw [hr] at hdone
  simp only at hdone
  cases ex with
  | err e =>
    rw [layerBody_eq_err env p l s s1 cps e hr]
    exact ⟨ch, bd, fun hne => absurd rfl (hne e)⟩
  | stop =>
    have hz := hcstop rfl
    have hlast := lst (by omega) (by intro e h; cases h)
    by_cases hc : layerConvCond p l s1.ts = true
    · rw [layerBody_eq_brk env p l s s1 cps BEx.stop hr (by intro e h; cases h) hc]
      refine ⟨ch, bd, fun _ => ?_⟩
      rw [hlast]
      refine ⟨by omega, Or.inl (by simp), by simp [hz.2], by simp [hz.1]⟩
    · rw [layerBody_eq_cont env p l s s1 cps BEx.stop hr (by intro e h; cases h)
        (by simpa using hc)]
      refine ⟨ch, bd, fun _ => ?_⟩
      rw [hlast]
      have hadv : (layerAdvance BEx.stop s1.ts).layer_iter = s1.ts.layer_iter := by
        rw [layerAdvance_layer_iter]
        simp
      refine ⟨by omega, Or.inl (by simp [hadv]), by simp [hz.2], by simp [hadv, hz.1]⟩
  | next =>
    have hz1 := hcnext rfl
    have hz2 := hdone rfl
    have hlast := lst (by omega) (by intro e h; cases h)
    by_cases hc : layerConvCond p l s1.ts = true
    · rw [layerBody_eq_brk env p l s s1 cps BEx.next hr (by intro e h; cases h) hc]
      refine ⟨ch, bd, fun _ => ?_⟩
      rw [hlast]
      refine ⟨by omega, Or.inl (by simp), by simp [hz2], by simp [hz1]⟩
    · rw [layerBody_eq_cont env p l s s1 cps BEx.next hr (by intro e h; cases h)
        (by simpa using hc)]
      refine ⟨ch, bd, fun _ => ?_⟩
      rw [hlast]
      have hadv : (layerAdvance BEx.next s1.ts).layer_iter = s1.ts.layer_iter + 1 := by
        rw [layerAdvance_layer_iter]
        simp
      refine ⟨by omega, Or.inr (by simp [hadv]), by simp [hz2], by simp [hadv, hz1]⟩

theorem outerLoop_chain (env : Env) (p : Params) (hMB : 1 ≤ p.max_block) :
    ∀ (k : Nat) (s : St) (x : TrainState),
    s.ts.block_iter = 0 →
    s.ts.layer_iter + k = p.max_layer →
    x.block_iter = 0 →
    (x.layer_iter = s.ts.layer_iter ∨ x.layer_iter + 1 = s.ts.layer_iter) →
    List.Chain cursorStep x (outerLoop env p (List.range' s.ts.layer_iter k) s).2.1 ∧
    (∀ c ∈ (outerLoop env p (List.range' s.ts.layer_iter k) s).2.1,
      c.block_iter + 1 ≤ p.max_block ∧ c.layer_iter ≤ p.max_layer) ∧
    ((∀ e, (outerLoop env p (List.range' s.ts.layer_iter k) s).2.2 ≠ OEx.err e) →
      ((outerLoop env p (List.range' s.ts.layer_iter k) s).2.1.getLastD x).block_iter = 0 ∧
      ((outerLoop env p (List.range' s.ts.layer_iter k) s).1.ts.layer_iter
          = ((outerLoop env p (List.range' s.ts.layer_iter k) s).2.1.getLastD x).layer_iter ∨
        (outerLoop env p (List.range' s.ts.layer_iter k) s).1.ts.layer_iter
          = ((outerLoop env p (List.range' s.ts.layer_iter k) s).2.1.getLastD x).layer_iter
            + 1) ∧
      (outerLoop env p (List.range' s.ts.layer_iter k) s).1.ts.block_iter = 0 ∧
      (outerLoop env p (List.range' s.ts.layer_iter k) s).1.ts.layer_iter ≤ p.max_layer) := by
  intro k
  induction k with
  | zero =>
    intro s x hbi hml hxb hxl
    rw [List.range'_zero, outerLoop_nil]
    refine ⟨List.Chain.nil, by simp, fun _ => ⟨hxb, ?_, hbi,
      (by omega : s.ts.layer_iter ≤ p.max_layer)⟩⟩
    rcases hxl with h1 | h1
    · exact Or.inl (h1.symm : s.ts.layer_iter = x.layer_iter)
    · exact Or.inr (by omega : s.ts.layer_iter = x.layer_iter + 1)
  | succ k ih =>
    intro s x hbi hml hxb hxl
    rw [List.range'_succ]
    rcases hb : layerBody env p s.ts.layer_iter s with ⟨s1, cps1, ex⟩
    obtain ⟨ch1, bd1, lst1⟩ := layerBody_chain env p s.ts.layer_iter s x hMB hbi hxb hxl
    rw [hb] at ch1 bd1 lst1
    simp only at ch1 bd1 lst1
    cases ex with
    | err e =>
      rw [outerLoop_cons_err env p s.ts.layer_iter _ s s1 cps1 e hb]
      refine ⟨ch1, ?_, fun hne => absurd rfl (hne e)⟩
      intro c hc
      obtain ⟨b1, b2⟩ := bd1 c hc
      exact ⟨b1, by omega⟩
    | brk =>
      rw [outerLoop_cons_brk env p s.ts.layer_iter _ s s1 cps1 hb]
      obtain ⟨l1, l2, l3, l4⟩ := lst1 (by intro e h; cases h)
      refine ⟨ch1, ?_, fun _ => ⟨l1, l2, l3,
        (by omega : s1.ts.layer_iter ≤ p.max_layer)⟩⟩
      intro c hc
      obtain ⟨b1, b2⟩ := bd1 c hc
      exact ⟨b1, by omega⟩
    | cont =>
      rw [outerLoop_cons_cont env p s.ts.layer_iter _ s s1 cps1 hb]
      obtain ⟨l1, l2, l3, l4⟩ := lst1 (by intro e h; cases h)
      have hcc := layerBody_cont_cursor env p s.ts.layer_iter s rfl (by omega) (by rw [hb])
      rw [hb] at hcc
      simp only at hcc
      obtain ⟨hli, _⟩ := hcc
      have hxl2 : (cps1.getLastD x).layer_iter = s1.ts.layer_iter ∨
          (cps1.getLastD x).layer_iter + 1 = s1.ts.layer_iter := by
        rcases l2 with h1 | h1
        · exact Or.inl h1.symm
        · exact Or.inr (by omega)
      obtain ⟨ch2, bd2, lst2⟩ := ih s1 (cps1.getLastD x) l3 (by omega) l1 hxl2
      rw [hli] at ch2 bd2 lst2
      refine ⟨?_, ?_, ?_⟩
      · exact chain_append_of ch1 ch2
      · intro c hc
        rcases List.mem_append.mp hc with hc1 | hc2
        · obtain ⟨b1, b2⟩ := bd1 c hc1
          exact ⟨b1, by omega⟩
        · exact bd2 c hc2
      · intro hne
        simp only at hne
        rw [getLastD_append]
        exact lst2 hne

/-! ### Claim C6: cursor bounds and monotonicity -/

/-- C6 (amended): throughout every fresh growth run with `max_block ≥ 1`,
every persisted checkpoint's block cursor lies in `[0, max_block - 1]`
and its layer cursor lies in `[0, max_layer]` — not `[0, max_layer - 1]`
as claimed: the final finished checkpoint (and a block-rollback
checkpoint in the deepest layer) persists `layer_iter = max_layer` — and
from the initial state on, consecutive checkpoints only advance the
block cursor by one or reset it to 0, and keep or advance the layer
cursor by one; neither cursor ever regresses otherwise. -/
theorem c6_cursor_invariant (env : Env) (p : Params) (cu : Nat)
    (hMB : 1 ≤ p.max_block) :
    (∀ c ∈ (growthLoop env p (initState p) cu).cps,
      c.block_iter + 1 ≤ p.max_block ∧ c.layer_iter ≤ p.max_layer) ∧
    List.Chain cursorStep (initState p) (growthLoop env p (initState p) cu).cps := by
  rcases ho : outerLoop env p
      (List.range' (initState p).layer_iter (p.max_layer - (initState p).layer_iter))
      { ts := initState p, cuda := cu } with ⟨sF, cpsO, exO⟩
  obtain ⟨ch, bd, lst⟩ := outerLoop_chain env p hMB
    (p.max_layer - (initState p).layer_iter) { ts := initState p, cuda := cu }
    (initState p) rfl (by simp [initState]) rfl (Or.inl rfl)
  rw [ho] at ch bd lst
  simp only at ch bd lst
  cases exO with
  | err e =>
    rw [growthLoop_run_err env p (initState p) cu sF cpsO e rfl ho]
    exact ⟨bd, ch⟩
  | brk =>
    rw [growthLoop_run_ok env p (initState p) cu sF cpsO OEx.brk rfl ho
      (by intro e h; cases h)]
    obtain ⟨l1, l2, l3, l4⟩ := lst (by intro e h; cases h)
    constructor
    · intro c hc
      rcases List.mem_append.mp hc with hc1 | hc2
      · exact bd c hc1
      · have hceq : c = { sF.ts with is_finished := true } := by simpa using hc2
        subst hceq
        exact ⟨by simpa using Nat.succ_le_of_lt (by omega), by simpa using l4⟩
    · refine chain_append_of ch (List.Chain.cons ⟨?_, ?_⟩ List.Chain.nil)
      · right
        simpa using l3
      · rcases l2 with h1 | h1
        · left
          simpa using h1
        · right
          simpa using h1
  | done =>
    rw [growthLoop_run_ok env p (initState p) cu sF cpsO OEx.done rfl ho
      (by intro e h; cases h)]
    obtain ⟨l1, l2, l3, l4⟩ := lst (by intro e h; cases h)
    constructor
    · intro c hc
      rcases List.mem_append.mp hc with hc1 | hc2
      · exact bd c hc1
      · have hceq : c = { sF.ts with is_finished := true } := by simpa using hc2
        subst hceq
        exact ⟨by simpa using Nat.succ_le_of_lt (by omega), by simpa using l4⟩
    · refine chain_append_of ch (List.Chain.cons ⟨?_, ?_⟩ List.Chain.nil)
      · right
        simpa using l3
      · rcases l2 with h1 | h1
        · left
          simpa using h1
        · right
          simpa using h1

/-- C6 counterexample: with `max_layer = 2`, the run's final persisted
checkpoint carries `layer_iter = 2 = max_layer`, outside the claimed
range `[0, max_layer - 1]`. -/
theorem c6_counterexample :
    (growthLoop envImprove pTwoLayers (initState pTwoLayers) 0).cps.getD 2
        (initState pTwoLayers)
      ∈ (growthLoop envImprove pTwoLayers (initState pTwoLayers) 0).cps ∧
    ((growthLoop envImprove pTwoLayers (initState pTwoLayers) 0).cps.getD 2
        (initState pTwoLayers)).layer_iter = pTwoLayers.max_layer := by
  constructor
  · decide
  · decide

/-- C6 witness: the amended bounds and step relation evaluated on the
concrete 2-layer run. -/
theorem c6_witness :
    (∀ c ∈ (growthLoop envImprove pTwoLayers (initState pTwoLayers) 0).cps,
      c.block_iter + 1 ≤ pTwoLayers.max_block ∧ c.layer_iter ≤ pTwoLayers.max_layer) ∧
    List.Chain cursorStep (initState pTwoLayers)
      (growthLoop envImprove pTwoLayers (initState pTwoLayers) 0).cps :=
  ⟨(c6_cursor_invariant envImprove pTwoLayers 0 (by decide)).1,
   (c6_cursor_invariant envImprove pTwoLayers 0 (by decide)).2⟩

/-! ### Claim C9: first-layer exemption -/

/-- C9: regardless of the environment, the configuration and the measures
observed, the guarded layer-convergence condition is identically false
for layer 0, and the body of layer 0 never exits with a layer rollback:
the first layer is always accepted (or the run aborts on a collaborator
error, which is not a rollback). -/
theorem c9_first_layer_exempt (env : Env) (p : Params) (s : St) :
    (∀ ts : TrainState, layerConvCond p 0 ts = false) ∧
    (layerBody env p 0 s).2.2 ≠ LEx.brk := by
  have hcond : ∀ ts : TrainState, layerConvCond p 0 ts = false := by
    intro ts
    unfold layerConvCond
    simp
  refine ⟨hcond, ?_⟩
  rcases hr : runBlocks env p 0
    (List.range' s.ts.block_iter (p.max_block - s.ts.block_iter)) s with ⟨s1, cps, ex⟩
  cases ex with
  | err e =>
    rw [layerBody_eq_err env p 0 s s1 cps e hr]
    intro hx
    cases hx
  | stop =>
    rw [layerBody_eq_cont env p 0 s s1 cps BEx.stop hr (by intro e h; cases h) (hcond s1.ts)]
    intro hx
    cases hx
  | next =>
    rw [layerBody_eq_cont env p 0 s s1 cps BEx.next hr (by intro e h; cases h) (hcond s1.ts)]
    intro hx
    cases hx

/-! ### Claim C5: failure policy on block training errors -/

/-- C5: if the Block-Train collaborator raises on a commit attempt, then the
computation environment is restored to its prior state, exactly the single
wrapped fatal error propagates (the inner loop exits with the fixed
RuntimeError message), no checkpoint is written — so no partial or
inconsistent block is ever committed to the persisted TrainState — and the
remaining blocks of the loop are never attempted (no automatic retry):
the result does not depend on the rest of the block schedule. -/
theorem c5_failure_policy (env : Env) (p : Params) (l j : Nat) (rest : List Nat)
    (s : St) (e : Nat)
    (hbu : env.blockUpdate (blockAttempt env p l j s.ts).topology
      (blockAttempt env p l j s.ts).op_set_indices
      (blockAttempt env p l j s.ts).weights p (blockNames l j) = Except.error e) :
    (runBlocks env p l (j :: rest) s).2.2 = BEx.err failMsg ∧
    (runBlocks env p l (j :: rest) s).1.cuda = s.cuda ∧
    (runBlocks env p l (j :: rest) s).2.1 = [] ∧
    ∀ rest2, runBlocks env p l (j :: rest2) s = runBlocks env p l (j :: rest) s := by
  have heq := blockStep_eq_err env p l j s e hbu
  rw [runBlocks_cons_err env p l j rest s _ _ failMsg heq]
  refine ⟨rfl, rfl, rfl, ?_⟩
  intro rest2
  rw [runBlocks_cons_err env p l j rest2 s _ _ failMsg heq]

/-- C5 witness: the failure policy evaluated with an always-raising
Block-Train collaborator on the fresh state. -/
theorem c5_witness :
    (runBlocks envFail pBase 0 [0, 1] { ts := initState pBase, cuda := 7 }).2.2
      = BEx.err failMsg ∧
    (runBlocks envFail pBase 0 [0, 1] { ts := initState pBase, cuda := 7 }).1.cuda = 7 ∧
    (runBlocks envFail pBase 0 [0, 1] { ts := initState pBase, cuda := 7 }).2.1 = [] ∧
    ∀ rest2, runBlocks envFail pBase 0 (0 :: rest2) { ts := initState pBase, cuda := 7 }
      = runBlocks envFail pBase 0 [0, 1] { ts := initState pBase, cuda := 7 } :=
  c5_failure_policy envFail pBase 0 0 [1] { ts := initState pBase, cuda := 7 } 13 rfl

/-! ### Claim C7: operator-set reuse and layer homogeneity -/

/-- C7: for every layer and every block j > 0, the block's operator-set
index is copied from block j-1 of the same layer and its initial
block/normalization/output weight triple derives from randomized
re-initialization of block j-1's committed weights; consequently, in a
layer grown from a state with no operator-set entries for that layer,
every recorded block of the layer carries the same operator-set index as
block 0. -/
theorem c7_op_set_homogeneity (env : Env) (p : Params) (l : Nat) :
    (∀ (j : Nat) (ts : TrainState) (i : Nat), 0 < j →
      wlookup ts.op_set_indices (WKey.gop l (j - 1)) = some i →
      (blockInit env p l j ts).2 = i) ∧
    (∀ (j : Nat) (ts : TrainState), 0 < j →
      (blockInit env p l j ts).1 = env.randomBlockWeights
        ((wlookup ts.weights (WKey.gop l (j - 1))).getD 0,
         (wlookup ts.weights (WKey.bn l (j - 1))).getD 0,
         (wlookup ts.weights WKey.output).getD 0)) ∧
    (∀ (n : Nat) (s : St),
      (∀ j, wlookup s.ts.op_set_indices (WKey.gop l j) = none) →
      ∀ (j v : Nat),
        wlookup (runBlocks env p l (List.range' 0 n) s).1.ts.op_set_indices
          (WKey.gop l j) = some v →
        wlookup (runBlocks env p l (List.range' 0 n) s).1.ts.op_set_indices
          (WKey.gop l 0) = some v) := by
  refine ⟨?_, ?_, ?_⟩
  · intro j ts i hj hlook
    unfold blockInit
    rw [if_neg (by omega)]
    simp [hlook]
  · intro j ts hj
    unfold blockInit
    rw [if_neg (by omega)]
  · have main : ∀ (n a : Nat) (s : St),
        (∀ j, a ≤ j → wlookup s.ts.op_set_indices (WKey.gop l j) = none) →
        (0 < a → ∃ v0, ∀ j, j < a →
          wlookup s.ts.op_set_indices (WKey.gop l j) = some v0) →
        ∃ b, (∀ j, b ≤ j →
            wlookup (runBlocks env p l (List.range' a n) s).1.ts.op_set_indices
              (WKey.gop l j) = none) ∧
          (0 < b → ∃ v0, ∀ j, j < b →
            wlookup (runBlocks env p l (List.range' a n) s).1.ts.op_set_indices
              (WKey.gop l j) = some v0) := by
      intro n
      induction n with
      | zero =>
        intro a s h1 h2
        rw [List.range'_zero, runBlocks_nil]
        exact ⟨a, h1, h2⟩
      | succ n ih =>
        intro a s h1 h2
        rw [List.range'_succ]
        have hops2 : ∀ j2,
            wlookup (blockAttempt env p l a s.ts).op_set_indices (WKey.gop l j2)
              = wlookup (winsert s.ts.op_set_indices (WKey.gop l a)
                  (blockInit env p l a (prepState p l a s.ts)).2) (WKey.gop l j2) := by
          intro j2
          simp [blockAttempt, addBlock]
        have hval : 0 < a →
            (blockInit env p l a (prepState p l a s.ts)).2
              = ((wlookup s.ts.op_set_indices (WKey.gop l (a - 1))).getD 0) := by
          intro ha
          unfold blockInit
          rw [if_neg (by omega)]
          simp
        have hq1 : ∀ j2, a + 1 ≤ j2 →
            wlookup (blockAttempt env p l a s.ts).op_set_indices (WKey.gop l j2)
              = none := by
          intro j2 hj2
          rw [hops2 j2, wlookup_winsert_ne _ _ _ _
            (by intro hc; injection hc with e1 e2; omega)]
          exact h1 j2 (by omega)
        have hq2 : ∃ v0, ∀ j2, j2 < a + 1 →
            wlookup (blockAttempt env p l a s.ts).op_set_indices (WKey.gop l j2)
              = some v0 := by
          by_cases ha : 0 < a
          · obtain ⟨v0, hv0⟩ := h2 ha
            refine ⟨v0, ?_⟩
            intro j2 hj2
            rw [hops2 j2]
            by_cases hje : j2 = a
            · rw [hje, wlookup_winsert_self, hval ha, hv0 (a - 1) (by omega)]
              rfl
            · rw [wlookup_winsert_ne _ _ _ _
                (by intro hc; injection hc with e1 e2; omega)]
              exact hv0 j2 (by omega)
          · have ha0 : a = 0 := by omega
            subst ha0
            refine ⟨(blockInit env p l 0 (prepState p l 0 s.ts)).2, ?_⟩
            intro j2 hj2
            have hj0 : j2 = 0 := by omega
            subst hj0
            rw [hops2 0, wlookup_winsert_self]
        rcases hb : blockStep env p l a s with ⟨s1, cps1, ex⟩
        have hstep : ∀ j2, wlookup s1.ts.op_set_indices (WKey.gop l j2)
            = (if ex = BEx.stop then wlookup s.ts.op_set_indices (WKey.gop l j2)
               else wlookup (blockAttempt env p l a s.ts).op_set_indices
                 (WKey.gop l j2)) := by
          intro j2
          rcases blockStep_shape env p l a s with ⟨e, _, heq⟩ |
            ⟨m, h, w2, _, ⟨hj, heq⟩ | heq⟩ <;> rw [hb] at heq
          · injection heq with hA hBC
            injection hBC with hB hC
            rw [hA, hC, if_neg (by intro hc; cases hc)]
          · injection heq with hA hBC
            injection hBC with hB hC
            rw [hA, hC, if_pos rfl]
            simp only [blockRollback]
            by_cases hje : j2 = a
            · rw [hje, wlookup_werase_self]
              exact (h1 a (by omega)).symm
            · rw [wlookup_werase_ne _ _ _
                (by intro hc; injection hc with e1 e2; omega)]
              have hred : wlookup
                  ({ blockAttempt env p l a s.ts with weights := w2 } :
                    TrainState).op_set_indices (WKey.gop l j2)
                  = wlookup (blockAttempt env p l a s.ts).op_set_indices
                    (WKey.gop l j2) := rfl
              rw [hred, hops2 j2, wlookup_winsert_ne _ _ _ _
                (by intro hc; injection hc with e1 e2; omega)]
          · injection heq with hA hBC
            injection hBC with hB hC
            rw [hA, hC, if_neg (by intro hc; cases hc)]
            simp only [blockCommit]
        cases ex with
        | err e =>
          rw [runBlocks_cons_err env p l a _ s s1 cps1 e hb]
          refine ⟨a + 1, ?_, fun _ => ?_⟩
          · intro j2 hj2
            rw [hstep j2, if_neg (by intro hc; cases hc)]
            exact hq1 j2 hj2
          · obtain ⟨v0, hv0⟩ := hq2
            refine ⟨v0, ?_⟩
            intro j2 hj2
            rw [hstep j2, if_neg (by intro hc; cases hc)]
            exact hv0 j2 hj2
        | stop =>
          rw [runBlocks_cons_stop env p l a _ s s1 cps1 hb]
          refine ⟨a, ?_, ?_⟩
          · intro j2 hj2
            rw [hstep j2, if_pos rfl]
            exact h1 j2 hj2
          · intro ha
            obtain ⟨v0, hv0⟩ := h2 ha
            refine ⟨v0, ?_⟩
            intro j2 hj2
            rw [hstep j2, if_pos rfl]
            exact hv0 j2 hj2
        | next =>
          rw [runBlocks_cons_next env p l a _ s s1 cps1 hb]
          have hn1 : ∀ j2, a + 1 ≤ j2 →
              wlookup s1.ts.op_set_indices (WKey.gop l j2) = none := by
            intro j2 hj2
            rw [hstep j2, if_neg (by intro hc; cases hc)]
            exact hq1 j2 hj2
          have hn2 : 0 < a + 1 → ∃ v0, ∀ j2, j2 < a + 1 →
              wlookup s1.ts.op_set_indices (WKey.gop l j2) = some v0 := by
            intro _
            obtain ⟨v0, hv0⟩ := hq2
            refine ⟨v0, ?_⟩
            intro j2 hj2
            rw [hstep j2, if_neg (by intro hc; cases hc)]
            exact hv0 j2 hj2
          exact ih (a + 1) s1 hn1 hn2
    intro n s hfresh j v hsome
    obtain ⟨b, hb1, hb2⟩ := main n 0 s (fun j2 _ => hfresh j2) (by omega)
    by_cases hjb : b ≤ j
    · rw [hb1 j hjb] at hsome
      cases hsome
    · obtain ⟨v0, hv0⟩ := hb2 (by omega)
      have h1 := hv0 j (by omega)
      have h2 := hv0 0 (by omega)
      rw [hsome] at h1
      injection h1 with h1
      rw [h2, h1]

/-- C7 witness: the reuse/homogeneity statements evaluated on the committed
block-0 state and on a fresh two-block run with the constant-measure
collaborators. -/
theorem c7_witness :
    (blockInit envConst pThreeBlocks 0 1 tsBlock1Entry).2 = 3 ∧
    (blockInit envConst pThreeBlocks 0 1 tsBlock1Entry).1
      = envConst.randomBlockWeights
        ((wlookup tsBlock1Entry.weights (WKey.gop 0 0)).getD 0,
         (wlookup tsBlock1Entry.weights (WKey.bn 0 0)).getD 0,
         (wlookup tsBlock1Entry.weights WKey.output).getD 0) ∧
    wlookup (runBlocks envImprove pThreeBlocks 0 (List.range' 0 2)
        { ts := initState pThreeBlocks, cuda := 0 }).1.ts.op_set_indices
      (WKey.gop 0 0) = some 3 :=
  ⟨(c7_op_set_homogeneity envConst pThreeBlocks 0).1 1 tsBlock1Entry 3
      (by decide) (by decide),
   (c7_op_set_homogeneity envConst pThreeBlocks 0).2.1 1 tsBlock1Entry (by decide),
   (c7_op_set_homogeneity envImprove pThreeBlocks 0).2.2 2
      { ts := initState pThreeBlocks, cuda := 0 } (fun _ => rfl) 1 3 (by decide)⟩

/-! ### Claim C10: the per-layer measure entry survives layer rollback -/

theorem blockStep_hm (env : Env) (p : Params) (l j : Nat) (s : St) (hj : j ≠ 0)
    (h0 : List (List Nat)) (x : List Nat) (m0 : List (List Int)) (y : List Int)
    (hH : s.ts.history = h0 ++ [x]) (hM : s.ts.measure = m0 ++ [y])
    (hHl : h0.length = l) (hMl : m0.length = l) :
    ∃ x2 y2, (blockStep env p l j s).1.ts.history = h0 ++ [x2] ∧
      (blockStep env p l j s).1.ts.measure = m0 ++ [y2] := by
  have hAH : (blockAttempt env p l j s.ts).history = h0 ++ [x] := by
    rw [blockAttempt_history, prepState_pos p l j s.ts hj, hH]
  have hAM : (blockAttempt env p l j s.ts).measure = m0 ++ [y] := by
    rw [blockAttempt_measure, prepState_pos p l j s.ts hj, hM]
  rcases blockStep_shape env p l j s with ⟨e, _, heq⟩ | ⟨m, h, w2, _, ⟨_, heq⟩ | heq⟩ <;>
    rw [heq]
  · exact ⟨x, y, hAH, hAM⟩
  · exact ⟨x, y, hAH, hAM⟩
  · refine ⟨x ++ [h], y ++ [m], ?_, ?_⟩
    · show updateAt (blockAttempt env p l j s.ts).history l (fun hs => hs ++ [h])
        = h0 ++ [x ++ [h]]
      rw [hAH, ← hHl]
      simpa using updateAt_append h0 x [] fun hs => hs ++ [h]
    · show updateAt (blockAttempt env p l j s.ts).measure l (fun ms => ms ++ [m])
        = m0 ++ [y ++ [m]]
      rw [hAM, ← hMl]
      simpa using updateAt_append m0 y [] fun ms => ms ++ [m]

theorem runBlocks_hm_tail (env : Env) (p : Params) (l : Nat) (js : List Nat)
    (hjs : ∀ j ∈ js, j ≠ 0) :
    ∀ (s : St) (h0 : List (List Nat)) (x : List Nat) (m0 : List (List Int))
      (y : List Int),
    s.ts.history = h0 ++ [x] → s.ts.measure = m0 ++ [y] →
    h0.length = l → m0.length = l →
    ∃ x2 y2, (runBlocks env p l js s).1.ts.history = h0 ++ [x2] ∧
      (runBlocks env p l js s).1.ts.measure = m0 ++ [y2] := by
  induction js with
  | nil =>
    intro s h0 x m0 y hH hM _ _
    exact ⟨x, y, hH, hM⟩
  | cons j rest ih =>
    intro s h0 x m0 y hH hM hHl hMl
    have hj : j ≠ 0 := hjs j (by simp)
    rcases hb : blockStep env p l j s with ⟨s1, cps1, ex⟩
    obtain ⟨x2, y2, e1, e2⟩ := blockStep_hm env p l j s hj h0 x m0 y hH hM hHl hMl
    rw [hb] at e1 e2
    simp only at e1 e2
    cases ex with
    | err e =>
      rw [runBlocks_cons_err env p l j rest s s1 cps1 e hb]
      exact ⟨x2, y2, e1, e2⟩
    | stop =>
      rw [runBlocks_cons_stop env p l j rest s s1 cps1 hb]
      exact ⟨x2, y2, e1, e2⟩
    | next =>
      rw [runBlocks_cons_next env p l j rest s s1 cps1 hb]
      exact ih (fun z hz => hjs z (by simp [hz])) s1 h0 x2 m0 y2 e1 e2 hHl hMl

theorem blockStep0_hm (env : Env) (p : Params) (l : Nat) (s : St)
    (hHl : s.ts.history.length = l) (hMl : s.ts.measure.length = l) :
    ∃ x y, (blockStep env p l 0 s).1.ts.history = s.ts.history ++ [x] ∧
      (blockStep env p l 0 s).1.ts.measure = s.ts.measure ++ [y] := by
  have hAH : (blockAttempt env p l 0 s.ts).history = s.ts.history ++ [[]] := by
    rw [blockAttempt_history]
    unfold prepState
    simp
  have hAM : (blockAttempt env p l 0 s.ts).measure = s.ts.measure ++ [[]] := by
    rw [blockAttempt_measure]
    unfold prepState
    simp
  rcases blockStep_shape env p l 0 s with ⟨e, _, heq⟩ | ⟨m, h, w2, _, ⟨hj, heq⟩ | heq⟩
  · rw [heq]
    exact ⟨[], [], hAH, hAM⟩
  · exact absurd hj (by omega)
  · rw [heq]
    refine ⟨[h], [m], ?_, ?_⟩
    · show updateAt (blockAttempt env p l 0 s.ts).history l (fun hs => hs ++ [h])
        = s.ts.history ++ [[h]]
      rw [hAH, ← hHl]
      simpa using updateAt_append s.ts.history [] [] fun hs => hs ++ [h]
    · show updateAt (blockAttempt env p l 0 s.ts).measure l (fun ms => ms ++ [m])
        = s.ts.measure ++ [[m]]
      rw [hAM, ← hMl]
      simpa using updateAt_append s.ts.measure [] [] fun ms => ms ++ [m]

/-- C10: when the layer-convergence check rejects the layer just grown, the
rollback deletes exactly the layer's training-history entry (restoring the
history to its state at layer entry, so all earlier layers' entries are
untouched) while the layer's per-layer measure entry is retained (the
measure equals its state at layer entry plus one trailing entry); the
resulting state has its measure sequence one entry longer than its history
sequence, and the outer loop terminates immediately with this state no
matter how many further layers were scheduled. -/
theorem c10_measure_retained (env : Env) (p : Params) (l : Nat) (s : St)
    (hMB : 1 ≤ p.max_block) (hbi : s.ts.block_iter = 0)
    (hHl : s.ts.history.length = l) (hMl : s.ts.measure.length = l)
    (hbrk : (layerBody env p l s).2.2 = LEx.brk) :
    (layerBody env p l s).1.ts.history = s.ts.history ∧
    (∃ ml, (layerBody env p l s).1.ts.measure = s.ts.measure ++ [ml]) ∧
    (layerBody env p l s).1.ts.measure.length
      = (layerBody env p l s).1.ts.history.length + 1 ∧
    ∀ rest, outerLoop env p (l :: rest) s
      = ((layerBody env p l s).1, (layerBody env p l s).2.1, OEx.brk) := by
  have hsplit : List.range' s.ts.block_iter (p.max_block - s.ts.block_iter)
      = 0 :: List.range' 1 (p.max_block - 1) := by
    rw [hbi, show p.max_block - 0 = (p.max_block - 1) + 1 by omega, List.range'_succ]
  rcases hr : runBlocks env p l
    (List.range' s.ts.block_iter (p.max_block - s.ts.block_iter)) s with ⟨s1, cps, ex⟩
  have hstruct : ∃ x y, s1.ts.history = s.ts.history ++ [x] ∧
      s1.ts.measure = s.ts.measure ++ [y] := by
    rw [hsplit] at hr
    rcases hb : blockStep env p l 0 s with ⟨sb, cpsb, exb⟩
    obtain ⟨x0, y0, e1, e2⟩ := blockStep0_hm env p l s hHl hMl
    rw [hb] at e1 e2
    simp only at e1 e2
    cases exb with
    | err e =>
      rw [runBlocks_cons_err env p l 0 _ s sb cpsb e hb] at hr
      obtain ⟨rfl, -, -⟩ : sb = s1 ∧ cpsb = cps ∧ BEx.err e = ex := by
        injection hr with a1 a2
        injection a2 with a2 a3
        exact ⟨a1, a2, a3⟩
      exact ⟨x0, y0, e1, e2⟩
    | stop =>
      rw [runBlocks_cons_stop env p l 0 _ s sb cpsb hb] at hr
      obtain ⟨rfl, -, -⟩ : sb = s1 ∧ cpsb = cps ∧ BEx.stop = ex := by
        injection hr with a1 a2
        injection a2 with a2 a3
        exact ⟨a1, a2, a3⟩
      exact ⟨x0, y0, e1, e2⟩
    | next =>
      rw [runBlocks_cons_next env p l 0 _ s sb cpsb hb] at hr
      obtain ⟨x2, y2, f1, f2⟩ := runBlocks_hm_tail env p l
        (List.range' 1 (p.max_block - 1))
        (by intro z hz; have := List.mem_range'_1.mp hz; omega) sb
        s.ts.history x0 s.ts.measure y0 e1 e2 hHl hMl
      have e3 : (runBlocks env p l (List.range' 1 (p.max_block - 1)) sb).1 = s1 := by
        injection hr with a1 _
      rw [e3] at f1 f2
      exact ⟨x2, y2, f1, f2⟩
  obtain ⟨x, y, hS1H, hS1M⟩ := hstruct
  have hbody : layerBody env p l s
      = ({ s1 with ts := layerRollback l s1.ts }, cps, LEx.brk) := by
    cases ex with
    | err e =>
      rw [layerBody_eq_err env p l s s1 cps e hr] at hbrk
      cases hbrk
    | stop =>
      by_cases hc : layerConvCond p l s1.ts = true
      · exact layerBody_eq_brk env p l s s1 cps BEx.stop hr (by intro e h; cases h) hc
      · rw [layerBody_eq_cont env p l s s1 cps BEx.stop hr (by intro e h; cases h)
          (by simpa using hc)] at hbrk
        cases hbrk
    | next =>
      by_cases hc : layerConvCond p l s1.ts = true
      · exact layerBody_eq_brk env p l s s1 cps BEx.next hr (by intro e h; cases h) hc
      · rw [layerBody_eq_cont env p l s s1 cps BEx.next hr (by intro e h; cases h)
          (by simpa using hc)] at hbrk
        cases hbrk
  rw [hbody]
  refine ⟨?_, ⟨y, ?_⟩, ?_, ?_⟩
  · show (layerRollback l s1.ts).history = s.ts.history
    rw [layerRollback_history, hS1H]
    simp
  · show (layerRollback l s1.ts).measure = s.ts.measure ++ [y]
    rw [layerRollback_measure, hS1M]
  · show (layerRollback l s1.ts).measure.length
      = (layerRollback l s1.ts).history.length + 1
    rw [layerRollback_measure, layerRollback_history, hS1H, hS1M]
    simp
    omega
  · intro rest
    rw [outerLoop_cons_brk env p l rest s ({ s1 with ts := layerRollback l s1.ts })
      cps hbody]

/-- C10 witness: the rollback of layer 1 under the constant-measure
collaborators, starting from its layer-entry checkpoint state. -/
theorem c10_witness :
    (layerBody envConst pTwoLayers 1 { ts := tsLayer1Entry, cuda := 0 }).1.ts.history
      = tsLayer1Entry.history ∧
    (∃ ml, (layerBody envConst pTwoLayers 1
        { ts := tsLayer1Entry, cuda := 0 }).1.ts.measure
      = tsLayer1Entry.measure ++ [ml]) ∧
    (layerBody envConst pTwoLayers 1
        { ts := tsLayer1Entry, cuda := 0 }).1.ts.measure.length
      = (layerBody envConst pTwoLayers 1
          { ts := tsLayer1Entry, cuda := 0 }).1.ts.history.length + 1 ∧
    ∀ rest, outerLoop envConst pTwoLayers (1 :: rest) { ts := tsLayer1Entry, cuda := 0 }
      = ((layerBody envConst pTwoLayers 1 { ts := tsLayer1Entry, cuda := 0 }).1,
         (layerBody envConst pTwoLayers 1 { ts := tsLayer1Entry, cuda := 0 }).2.1,
         OEx.brk) :=
  c10_measure_retained envConst pTwoLayers 1 { ts := tsLayer1Entry, cuda := 0 }
    (by decide) (by decide) (by decide) (by decide) (by decide)

/-! ### Claim C3: block rollback is exact -/

/-- C3: if the convergence evaluator declares convergence for block `j > 0`
of a layer (against block `j-1`'s recorded measure) after a successful
fine-tune whose weight output touches only the block's own names, then the
inner loop stops with a state whose Topology equals its state before the
block was attempted, whose Weights and OperatorSetIndices are extensionally
equal to that state (no residue of block `j`; `output` restored from the
last committed block's snapshot), with the block cursor reset to 0, the
layer cursor advanced by one, history and measure untouched, exactly the
rolled-back state checkpointed, and no further block of the schedule
attempted. -/
theorem c3_block_rollback (env : Env) (p : Params) (l j : Nat) (rest : List Nat)
    (s : St) (hj : 0 < j)
    (F : List TopEntry) (bl : List (String × Nat)) (q : String × Nat)
    (hT : s.ts.topology = F ++ [TopEntry.blockList bl, TopEntry.pair q])
    (hWg : wlookup s.ts.weights (WKey.gop l j) = none)
    (hWb : wlookup s.ts.weights (WKey.bn l j) = none)
    (hOg : wlookup s.ts.op_set_indices (WKey.gop l j) = none)
    (hWo : wlookup s.ts.weights WKey.output = some s.ts.block_output_weight)
    (m : Int) (h : Nat) (w2 : WMap)
    (hbu : env.blockUpdate (blockAttempt env p l j s.ts).topology
      (blockAttempt env p l j s.ts).op_set_indices
      (blockAttempt env p l j s.ts).weights p (blockNames l j) = Except.ok (m, h, w2))
    (hframe : ∀ k, k ∉ blockNames l j →
      wlookup w2 k = wlookup (blockAttempt env p l j s.ts).weights k)
    (hconv : check_convergence m ((s.ts.measure.getD l []).getD (j - 1) 0)
      p.direction p.block_threshold = true) :
    (runBlocks env p l (j :: rest) s).2.2 = BEx.stop ∧
    (runBlocks env p l (j :: rest) s).1.ts.topology = s.ts.topology ∧
    WEquiv (runBlocks env p l (j :: rest) s).1.ts.weights s.ts.weights ∧
    WEquiv (runBlocks env p l (j :: rest) s).1.ts.op_set_indices
      s.ts.op_set_indices ∧
    (runBlocks env p l (j :: rest) s).1.ts.history = s.ts.history ∧
    (runBlocks env p l (j :: rest) s).1.ts.measure = s.ts.measure ∧
    (runBlocks env p l (j :: rest) s).1.ts.block_iter = 0 ∧
    (runBlocks env p l (j :: rest) s).1.ts.layer_iter = s.ts.layer_iter + 1 ∧
    (runBlocks env p l (j :: rest) s).2.1 = [(runBlocks env p l (j :: rest) s).1.ts] ∧
    ∀ rest2, runBlocks env p l (j :: rest2) s = runBlocks env p l (j :: rest) s := by
  have hpre := prepState_pos p l j s.ts (by omega)
  have hstep := blockStep_eq_stop env p l j s m h w2 hbu hj
    (by rw [blockAttempt_measure, hpre]; exact hconv)
  have hAT : (blockAttempt env p l j s.ts).topology
      = F ++ TopEntry.blockList (bl ++ [("gop", p.block_size)]) :: [TopEntry.pair q] := by
    have hd : (blockAttempt env p l j s.ts).topology
        = updateAt (prepState p l j s.ts).topology
          ((prepState p l j s.ts).topology.length - 2)
          (fun e => match e with
            | TopEntry.blockList bl2 => TopEntry.blockList (bl2 ++ [("gop", p.block_size)])
            | e => e) := rfl
    rw [hd, hpre, hT, length_append_two]
    exact updateAt_append F (TopEntry.blockList bl) [TopEntry.pair q] _
  have hAW : ∀ k2, k2 ≠ WKey.gop l j → k2 ≠ WKey.bn l j → k2 ≠ WKey.output →
      wlookup (blockAttempt env p l j s.ts).weights k2 = wlookup s.ts.weights k2 := by
    intro k2 h1 h2 h3
    show wlookup (winsert (winsert (winsert (prepState p l j s.ts).weights
      (WKey.gop l j) _) (WKey.bn l j) _) WKey.output _) k2 = _
    rw [wlookup_winsert_ne _ _ _ _ h3, wlookup_winsert_ne _ _ _ _ h2,
      wlookup_winsert_ne _ _ _ _ h1, prepState_weights]
  have hbow : ({ blockAttempt env p l j s.ts with weights := w2 } :
      TrainState).block_output_weight = s.ts.block_output_weight := by simp
  rw [runBlocks_cons_stop env p l j rest s
    ({ ts := blockRollback l j { blockAttempt env p l j s.ts with weights := w2 },
       cuda := s.cuda })
    ([blockRollback l j { blockAttempt env p l j s.ts with weights := w2 }]) hstep]
  refine ⟨rfl, ?_, ?_, ?_, ?_, ?_, rfl, ?_, rfl, ?_⟩
  · show (blockRollback l j
      { blockAttempt env p l j s.ts with weights := w2 }).topology = s.ts.topology
    have hd : (blockRollback l j
        { blockAttempt env p l j s.ts with weights := w2 }).topology
        = updateAt (blockAttempt env p l j s.ts).topology
          ((blockAttempt env p l j s.ts).topology.length - 2)
          (fun e => match e with
            | TopEntry.blockList bl2 => TopEntry.blockList bl2.dropLast
            | e => e) := rfl
    rw [hd, hAT]
    rw [show (F ++ TopEntry.blockList (bl ++ [("gop", p.block_size)])
      :: [TopEntry.pair q]).length - 2 = F.length by simp]
    rw [updateAt_append F _ [TopEntry.pair q] _, hT]
    simp
  · intro k
    show wlookup (winsert (werase (werase w2 (WKey.gop l j)) (WKey.bn l j))
      WKey.output ({ blockAttempt env p l j s.ts with weights := w2 } :
        TrainState).block_output_weight) k = wlookup s.ts.weights k
    rw [hbow]
    by_cases hk1 : k = WKey.output
    · subst hk1
      rw [wlookup_winsert_self, hWo]
    · rw [wlookup_winsert_ne _ _ _ _ hk1]
      by_cases hk2 : k = WKey.bn l j
      · subst hk2
        rw [wlookup_werase_self, hWb]
      · rw [wlookup_werase_ne _ _ _ hk2]
        by_cases hk3 : k = WKey.gop l j
        · subst hk3
          rw [wlookup_werase_self, hWg]
        · rw [wlookup_werase_ne _ _ _ hk3]
          rw [hframe k (by simp [blockNames]; exact ⟨hk3, hk2, hk1⟩)]
          exact hAW k hk3 hk2 hk1
  · intro k
    show wlookup (werase ({ blockAttempt env p l j s.ts with weights := w2 } :
        TrainState).op_set_indices (WKey.gop l j)) k
      = wlookup s.ts.op_set_indices k
    by_cases hk : k = WKey.gop l j
    · subst hk
      rw [wlookup_werase_self, hOg]
    · rw [wlookup_werase_ne _ _ _ hk]
      show wlookup (winsert (prepState p l j s.ts).op_set_indices
        (WKey.gop l j) _) k = _
      rw [wlookup_winsert_ne _ _ _ _ hk, prepState_ops]
  · show (blockRollback l j
      { blockAttempt env p l j s.ts with weights := w2 }).history = s.ts.history
    rw [blockRollback_history]
    show (blockAttempt env p l j s.ts).history = s.ts.history
    rw [blockAttempt_history, hpre]
  · show (blockRollback l j
      { blockAttempt env p l j s.ts with weights := w2 }).measure = s.ts.measure
    rw [blockRollback_measure]
    show (blockAttempt env p l j s.ts).measure = s.ts.measure
    rw [blockAttempt_measure, hpre]
  · show (blockRollback l j
      { blockAttempt env p l j s.ts with weights := w2 }).layer_iter
      = s.ts.layer_iter + 1
    rw [blockRollback_layer_iter]
    simp
  · intro rest2
    rw [runBlocks_cons_stop env p l j rest2 s
      ({ ts := blockRollback l j { blockAttempt env p l j s.ts with weights := w2 },
         cuda := s.cuda })
      ([blockRollback l j { blockAttempt env p l j s.ts with weights := w2 }]) hstep]

/-- C3 witness: block 1 of layer 0 is rolled back exactly under the
constant-measure collaborators, starting from the state after block 0's
commit. -/
theorem c3_witness :
    (runBlocks envConst pThreeBlocks 0 [1, 2]
      { ts := tsBlock1Entry, cuda := 0 }).2.2 = BEx.stop ∧
    (runBlocks envConst pThreeBlocks 0 [1, 2]
      { ts := tsBlock1Entry, cuda := 0 }).1.ts.topology = tsBlock1Entry.topology ∧
    WEquiv (runBlocks envConst pThreeBlocks 0 [1, 2]
      { ts := tsBlock1Entry, cuda := 0 }).1.ts.weights tsBlock1Entry.weights ∧
    WEquiv (runBlocks envConst pThreeBlocks 0 [1, 2]
      { ts := tsBlock1Entry, cuda := 0 }).1.ts.op_set_indices
      tsBlock1Entry.op_set_indices ∧
    (runBlocks envConst pThreeBlocks 0 [1, 2]
      { ts := tsBlock1Entry, cuda := 0 }).1.ts.history = tsBlock1Entry.history ∧
    (runBlocks envConst pThreeBlocks 0 [1, 2]
      { ts := tsBlock1Entry, cuda := 0 }).1.ts.measure = tsBlock1Entry.measure ∧
    (runBlocks envConst pThreeBlocks 0 [1, 2]
      { ts := tsBlock1Entry, cuda := 0 }).1.ts.block_iter = 0 ∧
    (runBlocks envConst pThreeBlocks 0 [1, 2]
      { ts := tsBlock1Entry, cuda := 0 }).1.ts.layer_iter
      = tsBlock1Entry.layer_iter + 1 ∧
    (runBlocks envConst pThreeBlocks 0 [1, 2]
      { ts := tsBlock1Entry, cuda := 0 }).2.1
      = [(runBlocks envConst pThreeBlocks 0 [1, 2]
          { ts := tsBlock1Entry, cuda := 0 }).1.ts] ∧
    ∀ rest2, runBlocks envConst pThreeBlocks 0 (1 :: rest2)
        { ts := tsBlock1Entry, cuda := 0 }
      = runBlocks envConst pThreeBlocks 0 [1, 2] { ts := tsBlock1Entry, cuda := 0 } :=
  c3_block_rollback envConst pThreeBlocks 0 1 [2] { ts := tsBlock1Entry, cuda := 0 }
    (by decide) [] [("gop", 4)] ("dense", 2) rfl (by decide) (by decide) (by decide)
    (by decide) 5 7
    (blockAttempt envConst pThreeBlocks 0 1 tsBlock1Entry).weights rfl
    (fun _ _ => rfl) (by decide)

/-! ### Claim C4: layer rollback is exact -/

theorem layerRollback_eq (l : Nat) (ts : TrainState) (nb : Nat)
    (hnb : (match ts.topology.getD (ts.topology.length - 2) (TopEntry.blockList [])
      with
      | TopEntry.blockList bl => bl.length
      | TopEntry.pair _ => 2) = nb) :
    layerRollback l ts = { ts with
      topology := ts.topology.eraseIdx (ts.topology.length - 2)
      weights := winsert ((List.range nb).foldl
        (fun w idx => werase (werase w (WKey.gop l idx)) (WKey.bn l idx)) ts.weights)
        WKey.output ts.layer_output_weight
      op_set_indices := (List.range nb).foldl
        (fun o idx => werase o (WKey.gop l idx)) ts.op_set_indices
      history := ts.history.dropLast } := by
  subst hnb
  rfl

theorem runBlocks_layer_inv (env : Env) (p : Params) (l : Nat) (sBase : St)
    (F : List TopEntry)
    (hframe : ∀ t o w names r, env.blockUpdate t o w p names = Except.ok r →
      ∀ k, k ∉ names → wlookup r.2.2 k = wlookup w k)
    (hbW : ∀ i, wlookup sBase.ts.weights (WKey.gop l i) = none ∧
      wlookup sBase.ts.weights (WKey.bn l i) = none)
    (hbO : ∀ i, wlookup sBase.ts.op_set_indices (WKey.gop l i) = none) :
    ∀ (n a : Nat) (s2 : St), 1 ≤ a →
    (∃ blA : List (String × Nat),
      s2.ts.topology = F ++ [TopEntry.blockList blA,
        TopEntry.pair ("dense", p.output_dim)] ∧ blA.length = a) →
    (∀ k, (∀ i, i < a → k ≠ WKey.gop l i ∧ k ≠ WKey.bn l i) → k ≠ WKey.output →
      wlookup s2.ts.weights k = wlookup sBase.ts.weights k) →
    (∀ i, a ≤ i → wlookup s2.ts.weights (WKey.gop l i) = none ∧
      wlookup s2.ts.weights (WKey.bn l i) = none) →
    (∀ k, (∀ i, i < a → k ≠ WKey.gop l i) →
      wlookup s2.ts.op_set_indices k = wlookup sBase.ts.op_set_indices k) →
    (∀ i, a ≤ i → wlookup s2.ts.op_set_indices (WKey.gop l i) = none) →
    s2.ts.layer_output_weight = sBase.ts.layer_output_weight →
    ∃ a2, 1 ≤ a2 ∧
      (∃ blA : List (String × Nat),
        (runBlocks env p l (List.range' a n) s2).1.ts.topology
          = F ++ [TopEntry.blockList blA, TopEntry.pair ("dense", p.output_dim)] ∧
        blA.length = a2) ∧
      (∀ k, (∀ i, i < a2 → k ≠ WKey.gop l i ∧ k ≠ WKey.bn l i) → k ≠ WKey.output →
        wlookup (runBlocks env p l (List.range' a n) s2).1.ts.weights k
          = wlookup sBase.ts.weights k) ∧
      (∀ i, a2 ≤ i →
        wlookup (runBlocks env p l (List.range' a n) s2).1.ts.weights
          (WKey.gop l i) = none ∧
        wlookup (runBlocks env p l (List.range' a n) s2).1.ts.weights
          (WKey.bn l i) = none) ∧
      (∀ k, (∀ i, i < a2 → k ≠ WKey.gop l i) →
        wlookup (runBlocks env p l (List.range' a n) s2).1.ts.op_set_indices k
          = wlookup sBase.ts.op_set_indices k) ∧
      (∀ i, a2 ≤ i →
        wlookup (runBlocks env p l (List.range' a n) s2).1.ts.op_set_indices
          (WKey.gop l i) = none) ∧
      (runBlocks env p l (List.range' a n) s2).1.ts.layer_output_weight
        = sBase.ts.layer_output_weight := by
  intro n
  induction n with
  | zero =>
    intro a s2 ha hTo hW hWn hO hOn hlow
    rw [List.range'_zero, runBlocks_nil]
    exact ⟨a, ha, hTo, hW, hWn, hO, hOn, hlow⟩
  | succ n ih =>
    intro a s2 ha hTo hW hWn hO hOn hlow
    obtain ⟨blA, hTop, hlenA⟩ := hTo
    rw [List.range'_succ]
    have hATo : (blockAttempt env p l a s2.ts).topology
        = F ++ TopEntry.blockList (blA ++ [("gop", p.block_size)])
          :: [TopEntry.pair ("dense", p.output_dim)] := by
      have hd : (blockAttempt env p l a s2.ts).topology
          = updateAt (prepState p l a s2.ts).topology
            ((prepState p l a s2.ts).topology.length - 2)
            (fun e => match e with
              | TopEntry.blockList bl2 =>
                TopEntry.blockList (bl2 ++ [("gop", p.block_size)])
              | e => e) := rfl
      rw [hd, prepState_pos p l a s2.ts (by omega), hTop, length_append_two]
      exact updateAt_append F (TopEntry.blockList blA) _ _
    have hAW : ∀ k, k ≠ WKey.gop l a → k ≠ WKey.bn l a → k ≠ WKey.output →
        wlookup (blockAttempt env p l a s2.ts).weights k
          = wlookup s2.ts.weights k := by
      intro k h1 h2 h3
      show wlookup (winsert (winsert (winsert (prepState p l a s2.ts).weights
        (WKey.gop l a) _) (WKey.bn l a) _) WKey.output _) k = _
      rw [wlookup_winsert_ne _ _ _ _ h3, wlookup_winsert_ne _ _ _ _ h2,
        wlookup_winsert_ne _ _ _ _ h1, prepState_weights]
    have hAO : ∀ k, k ≠ WKey.gop l a →
        wlookup (blockAttempt env p l a s2.ts).op_set_indices k
          = wlookup s2.ts.op_set_indices k := by
      intro k h1
      show wlookup (winsert (prepState p l a s2.ts).op_set_indices
        (WKey.gop l a) _) k = _
      rw [wlookup_winsert_ne _ _ _ _ h1, prepState_ops]
    have hAlow : (blockAttempt env p l a s2.ts).layer_output_weight
        = sBase.ts.layer_output_weight := by rw [blockAttempt_low, hlow]
    have hattW : ∀ k, (∀ i, i < a + 1 → k ≠ WKey.gop l i ∧ k ≠ WKey.bn l i) →
        k ≠ WKey.output →
        wlookup (blockAttempt env p l a s2.ts).weights k
          = wlookup sBase.ts.weights k := by
      intro k hk hko
      rw [hAW k (hk a (by omega)).1 (hk a (by omega)).2 hko]
      exact hW k (fun i hi => hk i (by omega)) hko
    have hattWn : ∀ i, a + 1 ≤ i →
        wlookup (blockAttempt env p l a s2.ts).weights (WKey.gop l i) = none ∧
        wlookup (blockAttempt env p l a s2.ts).weights (WKey.bn l i) = none := by
      intro i hi
      constructor
      · rw [hAW _ (by intro hc; injection hc with e1 e2; omega)
          (by intro hc; cases hc) (by intro hc; cases hc)]
        exact (hWn i (by omega)).1
      · rw [hAW _ (by intro hc; cases hc)
          (by intro hc; injection hc with e1 e2; omega) (by intro hc; cases hc)]
        exact (hWn i (by omega)).2
    have hattO : ∀ k, (∀ i, i < a + 1 → k ≠ WKey.gop l i) →
        wlookup (blockAttempt env p l a s2.ts).op_set_indices k
          = wlookup sBase.ts.op_set_indices k := by
      intro k hk
      rw [hAO k (hk a (by omega))]
      exact hO k fun i hi => hk i (by omega)
    have hattOn : ∀ i, a + 1 ≤ i →
        wlookup (blockAttempt env p l a s2.ts).op_set_indices (WKey.gop l i)
          = none := by
      intro i hi
      rw [hAO _ (by intro hc; injection hc with e1 e2; omega)]
      exact hOn i (by omega)
    rcases blockStep_shape env p l a s2 with ⟨e, hbu, heq⟩ |
      ⟨m, h, w2, hbu, ⟨hja, heq⟩ | heq⟩
    · rw [runBlocks_cons_err env p l a _ s2 _ _ failMsg heq]
      exact ⟨a + 1, by omega,
        ⟨blA ++ [("gop", p.block_size)], hATo, by simp [hlenA]⟩,
        hattW, hattWn, hattO, hattOn, hAlow⟩
    · rw [runBlocks_cons_stop env p l a _ s2 _ _ heq]
      have hw2 : ∀ k, k ∉ blockNames l a →
          wlookup w2 k = wlookup (blockAttempt env p l a s2.ts).weights k :=
        hframe _ _ _ _ _ hbu
      refine ⟨a, ha, ⟨blA, ?_, hlenA⟩, ?_, ?_, ?_, ?_, ?_⟩
      · have hd : (blockRollback l a
            { blockAttempt env p l a s2.ts with weights := w2 }).topology
            = updateAt (blockAttempt env p l a s2.ts).topology
              ((blockAttempt env p l a s2.ts).topology.length - 2)
              (fun e => match e with
                | TopEntry.blockList bl2 => TopEntry.blockList bl2.dropLast
                | e => e) := rfl
        show (blockRollback l a
          { blockAttempt env p l a s2.ts with weights := w2 }).topology = _
        rw [hd, hATo, show (F ++ TopEntry.blockList (blA ++ [("gop", p.block_size)])
          :: [TopEntry.pair ("dense", p.output_dim)]).length - 2 = F.length by simp,
          updateAt_append]
        simp
      · intro k hk hko
        show wlookup (winsert (werase (werase w2 (WKey.gop l a)) (WKey.bn l a))
          WKey.output _) k = _
        rw [wlookup_winsert_ne _ _ _ _ hko]
        by_cases hkb : k = WKey.bn l a
        · subst hkb
          rw [wlookup_werase_self, (hbW a).2]
        · rw [wlookup_werase_ne _ _ _ hkb]
          by_cases hkg : k = WKey.gop l a
          · subst hkg
            rw [wlookup_werase_self, (hbW a).1]
          · rw [wlookup_werase_ne _ _ _ hkg,
              hw2 k (by simp [blockNames]; exact ⟨hkg, hkb, hko⟩)]
            refine hattW k ?_ hko
            intro i hi
            by_cases hia : i = a
            · subst hia
              exact ⟨hkg, hkb⟩
            · exact hk i (by omega)
      · intro i hi
        constructor
        · show wlookup (winsert (werase (werase w2 (WKey.gop l a)) (WKey.bn l a))
            WKey.output _) (WKey.gop l i) = none
          rw [wlookup_winsert_ne _ _ _ _ (by intro hc; cases hc),
            wlookup_werase_ne _ _ _ (by intro hc; cases hc)]
          by_cases hia : i = a
          · subst hia
            rw [wlookup_werase_self]
          · rw [wlookup_werase_ne _ _ _
              (by intro hc; injection hc with e1 e2; omega),
              hw2 _ (by simp [blockNames]; omega)]
            exact (hattWn i (by omega)).1
        · show wlookup (winsert (werase (werase w2 (WKey.gop l a)) (WKey.bn l a))
            WKey.output _) (WKey.bn l i) = none
          rw [wlookup_winsert_ne _ _ _ _ (by intro hc; cases hc)]
          by_cases hia : i = a
          · subst hia
            rw [wlookup_werase_self]
          · rw [wlookup_werase_ne _ _ _
              (by intro hc; injection hc with e1 e2; omega),
              wlookup_werase_ne _ _ _ (by intro hc; cases hc),
              hw2 _ (by simp [blockNames]; omega)]
            exact (hattWn i (by omega)).2
      · intro k hk
        show wlookup (werase ({ blockAttempt env p l a s2.ts with weights := w2 } :
          TrainState).op_set_indices (WKey.gop l a)) k = _
        by_cases hkg : k = WKey.gop l a
        · subst hkg
          rw [wlookup_werase_self, hbO a]
        · rw [wlookup_werase_ne _ _ _ hkg]
          refine hattO k ?_
          intro i hi
          by_cases hia : i = a
          · subst hia
            exact hkg
          · exact hk i (by omega)
      · intro i hi
        show wlookup (werase ({ blockAttempt env p l a s2.ts with weights := w2 } :
          TrainState).op_set_indices (WKey.gop l a)) (WKey.gop l i) = none
        by_cases hia : i = a
        · subst hia
          rw [wlookup_werase_self]
        · rw [wlookup_werase_ne _ _ _
            (by intro hc; injection hc with e1 e2; omega)]
          exact hattOn i (by omega)
      · show (blockRollback l a
          { blockAttempt env p l a s2.ts with weights := w2 }).layer_output_weight
          = sBase.ts.layer_output_weight
        rw [blockRollback_low]
        exact hAlow
    · rw [runBlocks_cons_next env p l a _ s2 _ _ heq]
      have hw2 : ∀ k, k ∉ blockNames l a →
          wlookup w2 k = wlookup (blockAttempt env p l a s2.ts).weights k :=
        hframe _ _ _ _ _ hbu
      refine ih (a + 1)
        ({ ts := blockCommit p l a m h
            { blockAttempt env p l a s2.ts with weights := w2 },
           cuda := s2.cuda }) (by omega)
        ⟨blA ++ [("gop", p.block_size)], ?_, by simp [hlenA]⟩ ?_ ?_ ?_ ?_ ?_
      · show (blockCommit p l a m h
          { blockAttempt env p l a s2.ts with weights := w2 }).topology = _
        rw [blockCommit_topology]
        exact hATo
      · intro k hk hko
        show wlookup (blockCommit p l a m h
          { blockAttempt env p l a s2.ts with weights := w2 }).weights k = _
        rw [blockCommit_weights]
        show wlookup w2 k = _
        rw [hw2 k (by simp [blockNames]; exact ⟨(hk a (by omega)).1,
          (hk a (by omega)).2, hko⟩)]
        exact hattW k hk hko
      · intro i hi
        constructor
        · show wlookup (blockCommit p l a m h
            { blockAttempt env p l a s2.ts with weights := w2 }).weights
            (WKey.gop l i) = none
          rw [blockCommit_weights]
          show wlookup w2 (WKey.gop l i) = none
          rw [hw2 _ (by simp [blockNames]; omega)]
          exact (hattWn i hi).1
        · show wlookup (blockCommit p l a m h
            { blockAttempt env p l a s2.ts with weights := w2 }).weights
            (WKey.bn l i) = none
          rw [blockCommit_weights]
          show wlookup w2 (WKey.bn l i) = none
          rw [hw2 _ (by simp [blockNames]; omega)]
          exact (hattWn i hi).2
      · intro k hk
        show wlookup (blockCommit p l a m h
          { blockAttempt env p l a s2.ts with weights := w2 }).op_set_indices k = _
        rw [blockCommit_ops]
        exact hattO k hk
      · intro i hi
        show wlookup (blockCommit p l a m h
          { blockAttempt env p l a s2.ts with weights := w2 }).op_set_indices
          (WKey.gop l i) = none
        rw [blockCommit_ops]
        exact hattOn i hi
      · show (blockCommit p l a m h
          { blockAttempt env p l a s2.ts with weights := w2 }).layer_output_weight
          = sBase.ts.layer_output_weight
        rw [blockCommit_low]
        exact hAlow

/-- C4: if layer convergence is declared when layer `l > 0` closes, and the
Block-Train collaborator touches only the names it is handed, then the
rollback removes the entire layer: the resulting Topology equals its state
when the layer was entered (the state after layer `l-1` closed), the
Weights and OperatorSetIndices are extensionally equal to that state (all
of the layer's block/normalization/operator entries deleted, `output`
restored from the last committed layer's snapshot), the layer's
training-history entry is deleted (history restored exactly), and growth
terminates: the outer loop exits with this state no matter how many deeper
layers were scheduled. -/
theorem c4_layer_rollback (env : Env) (p : Params) (l : Nat) (s : St)
    (hMB : 1 ≤ p.max_block) (hl : 0 < l) (hbi : s.ts.block_iter = 0)
    (F : List TopEntry)
    (hT : s.ts.topology = F ++ [TopEntry.pair ("dense", p.output_dim)])
    (hWg : ∀ i, wlookup s.ts.weights (WKey.gop l i) = none ∧
      wlookup s.ts.weights (WKey.bn l i) = none)
    (hOg : ∀ i, wlookup s.ts.op_set_indices (WKey.gop l i) = none)
    (hWo : wlookup s.ts.weights WKey.output = some s.ts.layer_output_weight)
    (hHl : s.ts.history.length = l) (hMl : s.ts.measure.length = l)
    (hframe : ∀ t o w names r, env.blockUpdate t o w p names = Except.ok r →
      ∀ k, k ∉ names → wlookup r.2.2 k = wlookup w k)
    (hbrk : (layerBody env p l s).2.2 = LEx.brk) :
    (layerBody env p l s).1.ts.topology = s.ts.topology ∧
    WEquiv (layerBody env p l s).1.ts.weights s.ts.weights ∧
    WEquiv (layerBody env p l s).1.ts.op_set_indices s.ts.op_set_indices ∧
    (layerBody env p l s).1.ts.history = s.ts.history ∧
    ∀ rest, outerLoop env p (l :: rest) s
      = ((layerBody env p l s).1, (layerBody env p l s).2.1, OEx.brk) := by
  have hsplit : List.range' s.ts.block_iter (p.max_block - s.ts.block_iter)
      = 0 :: List.range' 1 (p.max_block - 1) := by
    rw [hbi, show p.max_block - 0 = (p.max_block - 1) + 1 by omega, List.range'_succ]
  rcases hr : runBlocks env p l
    (List.range' s.ts.block_iter (p.max_block - s.ts.block_iter)) s with ⟨s1, cps, ex⟩
  have hpre0 : (prepState p l 0 s.ts).topology
      = F ++ [TopEntry.blockList [], TopEntry.pair ("dense", p.output_dim)] := by
    show ((if 0 < l then s.ts.topology.dropLast else s.ts.topology)
      ++ [TopEntry.blockList [], TopEntry.pair ("dense", p.output_dim)]) = _
    rw [if_pos hl, hT]
    simp
  have hA0T : (blockAttempt env p l 0 s.ts).topology
      = F ++ [TopEntry.blockList [("gop", p.block_size)],
          TopEntry.pair ("dense", p.output_dim)] := by
    have hd : (blockAttempt env p l 0 s.ts).topology
        = updateAt (prepState p l 0 s.ts).topology
          ((prepState p l 0 s.ts).topology.length - 2)
          (fun e => match e with
            | TopEntry.blockList bl2 =>
              TopEntry.blockList (bl2 ++ [("gop", p.block_size)])
            | e => e) := rfl
    rw [hd, hpre0, length_append_two]
    exact updateAt_append F (TopEntry.blockList [])
      [TopEntry.pair ("dense", p.output_dim)] _
  have hA0W : ∀ k, k ≠ WKey.gop l 0 → k ≠ WKey.bn l 0 → k ≠ WKey.output →
      wlookup (blockAttempt env p l 0 s.ts).weights k = wlookup s.ts.weights k := by
    intro k h1 h2 h3
    show wlookup (winsert (winsert (winsert (prepState p l 0 s.ts).weights
      (WKey.gop l 0) _) (WKey.bn l 0) _) WKey.output _) k = _
    rw [wlookup_winsert_ne _ _ _ _ h3, wlookup_winsert_ne _ _ _ _ h2,
      wlookup_winsert_ne _ _ _ _ h1, prepState_weights]
  have hA0O : ∀ k, k ≠ WKey.gop l 0 →
      wlookup (blockAttempt env p l 0 s.ts).op_set_indices k
        = wlookup s.ts.op_set_indices k := by
    intro k h1
    show wlookup (winsert (prepState p l 0 s.ts).op_set_indices
      (WKey.gop l 0) _) k = _
    rw [wlookup_winsert_ne _ _ _ _ h1, prepState_ops]
  have hInv : ∃ a2, 1 ≤ a2 ∧
      (∃ blA : List (String × Nat), s1.ts.topology = F ++ [TopEntry.blockList blA,
        TopEntry.pair ("dense", p.output_dim)] ∧ blA.length = a2) ∧
      (∀ k, (∀ i, i < a2 → k ≠ WKey.gop l i ∧ k ≠ WKey.bn l i) → k ≠ WKey.output →
        wlookup s1.ts.weights k = wlookup s.ts.weights k) ∧
      (∀ i, a2 ≤ i → wlookup s1.ts.weights (WKey.gop l i) = none ∧
        wlookup s1.ts.weights (WKey.bn l i) = none) ∧
      (∀ k, (∀ i, i < a2 → k ≠ WKey.gop l i) →
        wlookup s1.ts.op_set_indices k = wlookup s.ts.op_set_indices k) ∧
      (∀ i, a2 ≤ i → wlookup s1.ts.op_set_indices (WKey.gop l i) = none) ∧
      s1.ts.layer_output_weight = s.ts.layer_output_weight := by
    rcases blockStep_shape env p l 0 s with ⟨e, hbu, heq⟩ |
      ⟨m, h, w2, hbu, ⟨hj0, heq⟩ | heq⟩
    · exfalso
      have hr2 := hr
      rw [hsplit, runBlocks_cons_err env p l 0 _ s _ _ failMsg heq] at hr2
      obtain ⟨h1, h2, h3⟩ : _ ∧ _ ∧ BEx.err failMsg = ex := by
        injection hr2 with a1 a2
        injection a2 with a2 a3
        exact ⟨a1, a2, a3⟩
      rw [layerBody_eq_err env p l s s1 cps failMsg (by rw [hr, h3])] at hbrk
      cases hbrk
    · exact absurd hj0 (by omega)
    · have hw2 : ∀ k, k ∉ blockNames l 0 →
          wlookup w2 k = wlookup (blockAttempt env p l 0 s.ts).weights k :=
        hframe _ _ _ _ _ hbu
      rcases hb : blockStep env p l 0 s with ⟨sb, cpsb, exb⟩
      rw [hb] at heq
      injection heq with hA hBC
      injection hBC with hB hC
      have hts : sb.ts = blockCommit p l 0 m h
          { blockAttempt env p l 0 s.ts with weights := w2 } := by
        rw [hA]
      have hC0T : (blockCommit p l 0 m h
          { blockAttempt env p l 0 s.ts with weights := w2 }).topology
          = F ++ [TopEntry.blockList [("gop", p.block_size)],
              TopEntry.pair ("dense", p.output_dim)] := by
        rw [blockCommit_topology]
        exact hA0T
      have hC0W : ∀ k, (∀ i, i < 1 → k ≠ WKey.gop l i ∧ k ≠ WKey.bn l i) →
          k ≠ WKey.output →
          wlookup (blockCommit p l 0 m h
            { blockAttempt env p l 0 s.ts with weights := w2 }).weights k
          = wlookup s.ts.weights k := by
        intro k hk hko
        show wlookup w2 k = _
        rw [hw2 k (by simp [blockNames]; exact ⟨(hk 0 (by omega)).1,
          (hk 0 (by omega)).2, hko⟩)]
        exact hA0W k (hk 0 (by omega)).1 (hk 0 (by omega)).2 hko
      have hC0Wn : ∀ i, 1 ≤ i →
          wlookup (blockCommit p l 0 m h
            { blockAttempt env p l 0 s.ts with weights := w2 }).weights
            (WKey.gop l i) = none ∧
          wlookup (blockCommit p l 0 m h
            { blockAttempt env p l 0 s.ts with weights := w2 }).weights
            (WKey.bn l i) = none := by
        intro i hi
        constructor
        · show wlookup w2 (WKey.gop l i) = none
          rw [hw2 _ (by simp [blockNames]; omega)]
          rw [hA0W _ (by intro hc; injection hc with e1 e2; omega)
            (by intro hc; cases hc) (by intro hc; cases hc)]
          exact (hWg i).1
        · show wlookup w2 (WKey.bn l i) = none
          rw [hw2 _ (by simp [blockNames]; omega)]
          rw [hA0W _ (by intro hc; cases hc)
            (by intro hc; injection hc with e1 e2; omega) (by intro hc; cases hc)]
          exact (hWg i).2
      have hC0O : ∀ k, (∀ i, i < 1 → k ≠ WKey.gop l i) →
          wlookup (blockCommit p l 0 m h
            { blockAttempt env p l 0 s.ts with weights := w2 }).op_set_indices k
          = wlookup s.ts.op_set_indices k := by
        intro k hk
        show wlookup (blockAttempt env p l 0 s.ts).op_set_indices k = _
        exact hA0O k (hk 0 (by omega))
      have hC0On : ∀ i, 1 ≤ i →
          wlookup (blockCommit p l 0 m h
            { blockAttempt env p l 0 s.ts with weights := w2 }).op_set_indices
            (WKey.gop l i) = none := by
        intro i hi
        show wlookup (blockAttempt env p l 0 s.ts).op_set_indices (WKey.gop l i)
          = none
        rw [hA0O _ (by intro hc; injection hc with e1 e2; omega)]
        exact hOg i
      have hC0low : (blockCommit p l 0 m h
          { blockAttempt env p l 0 s.ts with weights := w2 }).layer_output_weight
          = s.ts.layer_output_weight := by
        show (blockAttempt env p l 0 s.ts).layer_output_weight = _
        rw [blockAttempt_low]
      obtain ⟨a2, ha2, hto, hiw, hiwn, hio, hion, hilow⟩ :=
        runBlocks_layer_inv env p l s F hframe hWg hOg (p.max_block - 1) 1 sb
          (by omega)
          ⟨[("gop", p.block_size)], (by rw [hts]; exact hC0T), rfl⟩
          (by intro k hk hko; rw [hts]; exact hC0W k hk hko)
          (by intro i hi; rw [hts]; exact hC0Wn i hi)
          (by intro k hk; rw [hts]; exact hC0O k hk)
          (by intro i hi; rw [hts]; exact hC0On i hi)
          (by rw [hts]; exact hC0low)
      have hr2 := hr
      rw [hsplit, runBlocks_cons_next env p l 0 _ s sb cpsb (by rw [hb, hC])] at hr2
      have e3 : (runBlocks env p l (List.range' 1 (p.max_block - 1)) sb).1 = s1 := by
        injection hr2 with a1 _
      rw [e3] at hto hiw hiwn hio hion hilow
      exact ⟨a2, ha2, hto, hiw, hiwn, hio, hion, hilow⟩
  obtain ⟨a2, ha2, ⟨blA, hTop1, hlenA⟩, hIW, hIWn, hIO, hIOn, hIlow⟩ := hInv
  have hstruct : ∃ x, s1.ts.history = s.ts.history ++ [x] := by
    have hr2 := hr
    rw [hsplit] at hr2
    rcases hb : blockStep env p l 0 s with ⟨sb, cpsb, exb⟩
    obtain ⟨x0, y0, e1, e2⟩ := blockStep0_hm env p l s hHl hMl
    rw [hb] at e1 e2
    simp only at e1 e2
    cases exb with
    | err e =>
      rw [runBlocks_cons_err env p l 0 _ s sb cpsb e hb] at hr2
      obtain ⟨rfl, -, -⟩ : sb = s1 ∧ cpsb = cps ∧ BEx.err e = ex := by
        injection hr2 with a1 a2
        injection a2 with a2 a3
        exact ⟨a1, a2, a3⟩
      exact ⟨x0, e1⟩
    | stop =>
      rw [runBlocks_cons_stop env p l 0 _ s sb cpsb hb] at hr2
      obtain ⟨rfl, -, -⟩ : sb = s1 ∧ cpsb = cps ∧ BEx.stop = ex := by
        injection hr2 with a1 a2
        injection a2 with a2 a3
        exact ⟨a1, a2, a3⟩
      exact ⟨x0, e1⟩
    | next =>
      rw [runBlocks_cons_next env p l 0 _ s sb cpsb hb] at hr2
      obtain ⟨x2, y2, f1, f2⟩ := runBlocks_hm_tail env p l
        (List.range' 1 (p.max_block - 1))
        (by intro z hz; have := List.mem_range'_1.mp hz; omega) sb
        s.ts.history x0 s.ts.measure y0 e1 e2 hHl hMl
      have e4 : (runBlocks env p l (List.range' 1 (p.max_block - 1)) sb).1 = s1 := by
        injection hr2 with a1 _
      rw [e4] at f1
      exact ⟨x2, f1⟩
  obtain ⟨x, hS1H⟩ := hstruct
  have hbody : layerBody env p l s
      = ({ s1 with ts := layerRollback l s1.ts }, cps, LEx.brk) := by
    cases ex with
    | err e =>
      rw [layerBody_eq_err env p l s s1 cps e hr] at hbrk
      cases hbrk
    | stop =>
      by_cases hc : layerConvCond p l s1.ts = true
      · exact layerBody_eq_brk env p l s s1 cps BEx.stop hr (by intro e h; cases h) hc
      · rw [layerBody_eq_cont env p l s s1 cps BEx.stop hr (by intro e h; cases h)
          (by simpa using hc)] at hbrk
        cases hbrk
    | next =>
      by_cases hc : layerConvCond p l s1.ts = true
      · exact layerBody_eq_brk env p l s s1 cps BEx.next hr (by intro e h; cases h) hc
      · rw [layerBody_eq_cont env p l s s1 cps BEx.next hr (by intro e h; cases h)
          (by simpa using hc)] at hbrk
        cases hbrk
  have hnb : (match s1.ts.topology.getD (s1.ts.topology.length - 2)
      (TopEntry.blockList []) with
    | TopEntry.blockList bl => bl.length
    | TopEntry.pair _ => 2) = a2 := by
    rw [hTop1, show (F ++ [TopEntry.blockList blA,
      TopEntry.pair ("dense", p.output_dim)]).length - 2 = F.length
      from length_append_two F _ _, getD_append]
    exact hlenA
  rw [hbody, layerRollback_eq l s1.ts a2 hnb]
  refine ⟨?_, ?_, ?_, ?_, ?_⟩
  · show s1.ts.topology.eraseIdx (s1.ts.topology.length - 2) = s.ts.topology
    rw [hTop1, show (F ++ [TopEntry.blockList blA,
      TopEntry.pair ("dense", p.output_dim)]).length - 2 = F.length
      from length_append_two F _ _, eraseIdx_append, hT]
  · intro k
    show wlookup (winsert ((List.range a2).foldl
      (fun w idx => werase (werase w (WKey.gop l idx)) (WKey.bn l idx))
      s1.ts.weights) WKey.output s1.ts.layer_output_weight) k
      = wlookup s.ts.weights k
    by_cases hko : k = WKey.output
    · subst hko
      rw [wlookup_winsert_self, hIlow, hWo]
    · rw [wlookup_winsert_ne _ _ _ _ hko]
      by_cases hg : ∃ i, i < a2 ∧ (k = WKey.gop l i ∨ k = WKey.bn l i)
      · obtain ⟨i, hi, hk | hk⟩ := hg
        · subst hk
          rw [wlookup_foldl_erase2_gop l a2 _ i hi, (hWg i).1]
        · subst hk
          rw [wlookup_foldl_erase2_bn l a2 _ i hi, (hWg i).2]
      · push_neg at hg
        rw [wlookup_foldl_erase2_of_ne l a2 _ k hg]
        exact hIW k hg hko
  · intro k
    show wlookup ((List.range a2).foldl
      (fun o idx => werase o (WKey.gop l idx)) s1.ts.op_set_indices) k
      = wlookup s.ts.op_set_indices k
    by_cases hg : ∃ i, i < a2 ∧ k = WKey.gop l i
    · obtain ⟨i, hi, rfl⟩ := hg
      rw [wlookup_foldl_erase1_gop l a2 _ i hi, hOg i]
    · push_neg at hg
      rw [wlookup_foldl_erase1_of_ne l a2 _ k hg]
      exact hIO k hg
  · show s1.ts.history.dropLast = s.ts.history
    rw [hS1H]
    simp
  · intro rest
    rw [outerLoop_cons_brk env p l rest s ({ s1 with ts := layerRollback l s1.ts })
      cps hbody, layerRollback_eq l s1.ts a2 hnb]

/-- C4 witness: layer 1 is rolled back exactly under the constant-measure
collaborators, starting from its layer-entry checkpoint state. -/
theorem c4_witness :
    (layerBody envConst pTwoLayers 1 { ts := tsLayer1Entry, cuda := 0 }).1.ts.topology
      = tsLayer1Entry.topology ∧
    WEquiv (layerBody envConst pTwoLayers 1
      { ts := tsLayer1Entry, cuda := 0 }).1.ts.weights tsLayer1Entry.weights ∧
    WEquiv (layerBody envConst pTwoLayers 1
      { ts := tsLayer1Entry, cuda := 0 }).1.ts.op_set_indices
      tsLayer1Entry.op_set_indices ∧
    (layerBody envConst pTwoLayers 1 { ts := tsLayer1Entry, cuda := 0 }).1.ts.history
      = tsLayer1Entry.history ∧
    ∀ rest, outerLoop envConst pTwoLayers (1 :: rest) { ts := tsLayer1Entry, cuda := 0 }
      = ((layerBody envConst pTwoLayers 1 { ts := tsLayer1Entry, cuda := 0 }).1,
         (layerBody envConst pTwoLayers 1 { ts := tsLayer1Entry, cuda := 0 }).2.1,
         OEx.brk) :=
  c4_layer_rollback envConst pTwoLayers 1 { ts := tsLayer1Entry, cuda := 0 }
    (by decide) (by decide) (by decide)
    [TopEntry.blockList [("gop", 4)]] (by decide)
    (fun _ => ⟨rfl, rfl⟩) (fun _ => rfl) (by decide) (by decide) (by decide)
    (fun t o w names r hr k hk => by injection hr with h2; rw [← h2])
    (by decide)

/-! ### Claim C8: the fit contract -/

/-- C8: `fit` validates the supplied data generators against the declared
input/output dimensionality before any growth work — on a validation
failure the error propagates with no checkpoint written, the working
directory untouched, and a result independent of the collaborators and of
the stored training state; and on a successful growth run it runs the
full-network fine-tune on the model assembled from the terminal
`TrainState`, deletes the transient per-run working directory, and returns
the triple `(final_performance, growth_history, finetune_history)` in that
order. -/
theorem c8_fit_contract (env : Env) (p : Params) (train : Gen)
    (valG testG : Option Gen) (ts0 : TrainState) (cuda0 : Nat) (workdir : Bool) :
    (∀ e, validateGens { p with convergence_measure :=
        (if valG.isSome then "val_" else "train_") ++ p.convergence_measure }
        train valG testG = Except.error e →
      ∀ (env2 : Env) (ts02 : TrainState) (cuda02 : Nat),
        fit env2 p train valG testG ts02 cuda02 workdir
          = { result := Except.error e, cps := [], workdir := workdir }) ∧
    (∀ ts, (progressive_learn env p train valG testG ts0 cuda0).result
        = Except.ok ts →
      fit env p train valG testG ts0 cuda0 workdir
        = { result := Except.ok ((env.finetune (modelData env p ts) p).2,
              ts.history, (env.finetune (modelData env p ts) p).1),
            cps := (progressive_learn env p train valG testG ts0 cuda0).cps,
            workdir := false }) := by
  constructor
  · intro e hval env2 ts02 cuda02
    have hpl : progressive_learn env2 p train valG testG ts02 cuda02
        = { result := Except.error e, cuda := cuda02, cps := [] } := by
      simp only [progressive_learn]
      rw [hval]
    simp only [fit, hpl]
  · intro ts hts
    simp only [fit]
    rw [hts]

/-- C8 witness: a dimension-mismatched generator fails fast with the
working directory intact, and a finished-state run returns the fine-tune
triple with the working directory deleted. -/
theorem c8_witness :
    (fit envConst pBase ({ input_dim := 3, output_dim := 2 } : Gen) none none
        (initState pBase) 0 true
      = { result := Except.error "generator dimension mismatch", cps := [],
          workdir := true }) ∧
    (fit envConst pBase genOk none none
        { tsLayer1Entry with is_finished := true } 0 true
      = { result := Except.ok
            ((envConst.finetune (modelData envConst pBase
              { tsLayer1Entry with is_finished := true }) pBase).2,
             ({ tsLayer1Entry with is_finished := true } : TrainState).history,
             (envConst.finetune (modelData envConst pBase
              { tsLayer1Entry with is_finished := true }) pBase).1),
          cps := (progressive_learn envConst pBase genOk none none
            { tsLayer1Entry with is_finished := true } 0).cps,
          workdir := false }) :=
  ⟨(c8_fit_contract envConst pBase ({ input_dim := 3, output_dim := 2 } : Gen)
      none none (initState pBase) 0 true).1 "generator dimension mismatch"
      (by decide) envConst (initState pBase) 0,
   (c8_fit_contract envConst pBase genOk none none
      { tsLayer1Entry with is_finished := true } 0 true).2
      { tsLayer1Entry with is_finished := true } (by decide)⟩

end HoMLGOP
